import Mathlib

/-!
Verification development for the output-interpretation and preview pipeline of
the Cursor-V2 front end (`frontend/src/components/ComparisonEditors.tsx`).

The repository ships the component twice inside that file (an earlier and a
later revision, separated by a document marker).  Where the two revisions
differ, both are embedded: the revision starting at line 1 is suffixed `1`
(`getPreviewContent`, `handleViewModeChange`), the revision starting at line
1297 is suffixed `2` (`getPreviewContent2`, `handleViewModeChange2`).  The
classifier `extractCodeAndExplanation` is identical in both revisions.

Strings are modelled as `List Char`.  JavaScript `\s` (and `String.trim`) is
modelled by the ASCII whitespace characters; `\w` by ASCII letters, digits and
underscore; `toLowerCase` by `Char.toLower`.  All inputs exercised here are
ASCII, where these agree with the JavaScript semantics.  The language
identifier interpolated into the fence regular expression is matched literally
and case-insensitively, which is faithful for identifiers (such as `html`,
`css`, `javascript`) that contain no regular-expression metacharacters.
-/

set_option maxRecDepth 20000

abbrev Str := List Char

/-- ASCII whitespace, the model of the JavaScript `\s` class used by
`String.trim` and the fence regular expression. -/
def wsChar (c : Char) : Bool :=
  c = ' ' || c = '\t' || c = '\n' || c = '\r' || c = '\x0b' || c = '\x0c'

/-- ASCII model of the JavaScript `\w` class. -/
def wordChar (c : Char) : Bool := c.isAlpha || c.isDigit || c = '_'

def trimLeftS (s : Str) : Str := s.dropWhile wsChar

def trimRightS (s : Str) : Str := (s.reverse.dropWhile wsChar).reverse

/-- Model of JavaScript `String.prototype.trim`. -/
def trimS (s : Str) : Str := trimRightS (trimLeftS s)

/-- Model of JavaScript `String.prototype.split('\n')`. -/
def splitNl : Str → List Str
  | [] => [[]]
  | c :: rest =>
    if c = '\n' then [] :: splitNl rest
    else
      match splitNl rest with
      | [] => [[c]]
      | l :: ls => (c :: l) :: ls

/-- Model of `Array.prototype.join(sep)`. -/
def joinSep (sep : Str) : List Str → Str
  | [] => []
  | [l] => l
  | l :: ls => l ++ sep ++ joinSep sep ls

def startsWithS (p s : Str) : Bool := p.isPrefixOf s

def endsWithS (p s : Str) : Bool := startsWithS p.reverse s.reverse

/-- Model of JavaScript `String.prototype.includes`. -/
def substrB (n : Str) : Str → Bool
  | [] => n.isEmpty
  | c :: rest => n.isPrefixOf (c :: rest) || substrB n rest

def lowerS (s : Str) : Str := s.map Char.toLower

/-- Case-insensitive prefix test, the model of matching a literal tag under the
regular-expression `i` flag. -/
def ciPrefix (p s : Str) : Bool := (lowerS p).isPrefixOf (lowerS s)

def firstCharTest (p : Char → Bool) : Str → Bool
  | [] => false
  | c :: _ => p c

/-- The three-backtick fence delimiter. -/
def ticks : Str := ['`', '`', '`']

/-- Closing-fence search of the lazy capture group in the fence regular
expression ```` ```(?:lang)?\s*\n?([\s\S]*?)\n?``` ````: the shortest capture
after which an optional newline and a closing fence follow.  Returns the
capture and the text after the closing fence. -/
def findClose : Str → Option (Str × Str)
  | [] => none
  | c :: cs =>
    if startsWithS ticks (c :: cs) then some ([], cs.drop 2)
    else if c = '\n' && startsWithS ticks cs then some ([], cs.drop 3)
    else
      match findClose cs with
      | some (cap, rest) => some (c :: cap, rest)
      | none => none

/-- Strip the optional, case-insensitive language tag after an opening fence
(the `(?:lang)?` group). -/
def dropTag (lang s : Str) : Str :=
  if ciPrefix lang s then s.drop lang.length else s

/-- Fuel-indexed fence scan; the fuel only drives structural recursion and is
irrelevant once it is at least the text length (`scanFencesGo_irrel`). -/
def scanFencesGo (lang : Str) : Nat → Str → List Str
  | 0, _ => []
  | _ + 1, [] => []
  | fuel + 1, c :: cs =>
    if startsWithS ticks (c :: cs) then
      match findClose (trimLeftS (dropTag lang (cs.drop 2))) with
      | some (cap, rest2) => cap :: scanFencesGo lang fuel rest2
      | none => scanFencesGo lang fuel cs
    else scanFencesGo lang fuel cs

/-- The global fence scan: the list of captures produced by
`text.matchAll(codeBlockRegex)` at lines 219-221 / 1507-1509. -/
def scanFences (lang : Str) (s : Str) : List Str := scanFencesGo lang s.length s

/-- The text before the first fence occurrence:
`text.substring(0, text.indexOf('```'))` at line 225 / 1513. -/
def beforeTicks : Str → Str
  | [] => []
  | c :: cs => if startsWithS ticks (c :: cs) then [] else c :: beforeTicks cs

/-- Language-specific code-shape test of the heuristic line classifier,
lines 249-280 / 1537-1568, applied to the trimmed line. -/
def isCodeLine (lang t : Str) : Bool :=
  if lang = "html".toList then
    startsWithS "<".toList t || startsWithS "</".toList t ||
    endsWithS ">".toList t || substrB "/>".toList t ||
    firstCharTest (fun c => c = '<' || c = '{' || wordChar c) t
  else if lang = "css".toList then
    substrB "\x7b".toList t || substrB "\x7d".toList t || substrB ":".toList t ||
    firstCharTest (fun c => wordChar c || c = '-' || c = '#' || c = '.' || c = '[') t
  else if lang = "javascript".toList then
    substrB "function".toList t || substrB "=>".toList t ||
    substrB "var ".toList t || substrB "let ".toList t ||
    substrB "const ".toList t || substrB "class ".toList t ||
    substrB "return ".toList t || substrB "if ".toList t ||
    substrB "else ".toList t || substrB "for ".toList t ||
    substrB "while ".toList t ||
    firstCharTest (fun c => wordChar c || c = '$' || c = '_') t ||
    firstCharTest (fun c => c = '{' || c = '}' || c = '[' || c = ']' ||
                            c = '(' || c = ')' || c = ';') t
  else
    firstCharTest (fun c => wordChar c || c = '$' || c = '_' ||
                            c = '(' || c = '{' || c = '[' || c = '<') t

/-- Comment-shape test of the heuristic line classifier, lines 283-288 /
1571-1576, applied to the trimmed line. -/
def isCommentLine (lang t : Str) : Bool :=
  startsWithS "//".toList t || startsWithS "/*".toList t ||
  startsWithS "*".toList t ||
  (lang = "html".toList && startsWithS "<!--".toList t)

/-- Accumulator of the heuristic line loop at lines 237-300 / 1525-1588. -/
structure ScanAcc where
  inCode : Bool
  codeLines : List Str
  expl : List Str

/-- One iteration of the heuristic line loop. -/
def lineStep (lang : Str) (acc : ScanAcc) (line : Str) : ScanAcc :=
  let t := trimS line
  if t = [] then acc
  else
    let code := isCodeLine lang t
    let cmt := isCommentLine lang t
    if code then { acc with inCode := true, codeLines := acc.codeLines ++ [line] }
    else if cmt && acc.inCode then { acc with codeLines := acc.codeLines ++ [line] }
    else if !cmt && !code then { acc with expl := acc.expl ++ [t] }
    else acc

/-- First character admitted by the final allow-list filter
(`/^[\s]*[a-zA-Z0-9_$({[<]/` on the trimmed line). -/
def allowHead (c : Char) : Bool :=
  c.isAlpha || c.isDigit || c = '_' || c = '$' || c = '(' || c = '{' ||
  c = '[' || c = '<'

/-- After a comment marker: optional whitespace then `[@\w]`
(the `\s*[@\w]` part of the comment patterns at lines 314-316 / 1602-1604). -/
def cmtHead (s : Str) : Bool :=
  firstCharTest (fun c => wordChar c || c = '@') (trimLeftS s)

/-- Unanchored search for `<!--\s*[@\w]` (line 318 / 1606). -/
def htmlCmtSearch : Str → Bool
  | [] => false
  | c :: cs =>
    (startsWithS "<!--".toList (c :: cs) && cmtHead ((c :: cs).drop 4)) ||
    htmlCmtSearch cs

/-- The final allow-list filter of lines 309-319 / 1597-1607 on the trimmed
form `t` of a line. -/
def keepT (lang t : Str) : Bool :=
  decide (t ≠ []) &&
  (firstCharTest allowHead t ||
   (startsWithS "//".toList t && cmtHead (t.drop 2)) ||
   (startsWithS "/*".toList t && cmtHead (t.drop 2)) ||
   (startsWithS "*/".toList t && (t.drop 2).all wsChar) ||
   (startsWithS "*".toList t && cmtHead (t.drop 1)) ||
   (lang = "html".toList && startsWithS "<!--".toList t && htmlCmtSearch t))

/-- The final allow-list filter applied to a raw line (the source trims the
line first: `const trimmed = line.trim()`). -/
def keepLine (lang line : Str) : Bool := keepT lang (trimS line)

/-- The final code cleanup of lines 306-322 / 1594-1610: split into lines,
keep only allow-listed lines, rejoin, trim. -/
def cleanupCode (lang s : Str) : Str :=
  trimS (joinSep "\n".toList ((splitNl s).filter (keepLine lang)))

/-- The content classifier `extractCodeAndExplanation` of lines 212-328 /
1500-1616.  The input models the JavaScript `string | null | undefined`
parameter: `none` stands for an absent value. -/
def extractCodeAndExplanation (text : Option Str) (lang : Str) : Str × Str :=
  match text with
  | none => ([], [])
  | some t =>
    if t = [] then ([], [])
    else
      let blocks := scanFences lang t
      if blocks.length > 0 then
        let expl :=
          joinSep "\n".toList
            ((splitNl (beforeTicks t)).filter (fun l => decide (trimS l ≠ [])))
        let codeJ := joinSep "\n\n".toList ((blocks.map trimS).filter (· ≠ []))
        (cleanupCode lang codeJ, expl)
      else
        let acc := (splitNl t).foldl (lineStep lang) ⟨false, [], []⟩
        (cleanupCode lang (trimS (joinSep "\n".toList acc.codeLines)),
         trimS (joinSep "\n".toList acc.expl))

/-!
Preview document templates, transcribed from the template literals of
`getPreviewContent`.  `Pre`/`Post` are the text before and after the single
interpolation point.  Literal braces are written `\x7b`/`\x7d` and apostrophes
`\x27`.  The `1` constants come from the template at lines 350-426 (stylesheet)
and 430-580 (script); the `2` constants from lines 1637-1648 (markup wrap),
1652-1670 (stylesheet) and 1673-1721 (script).
-/

def cssPre1a : Str := "\n        <!DOCTYPE html>\n        <html>\n          <head>\n            <meta charset=\"utf-8\">\n            <meta name=\"viewport\" content=\"width=device-width, initial-scale=1.0\">\n            ".toList

def cssPre1b : Str := "\n              /* Reset default styles */\n              * \x7b margin: 0; padding: 0; box-sizing: border-box; \x7d\n              body \x7b padding: 20px; font-family: system-ui, -apple-system, sans-serif; \x7d\n              \n              /* Preview container styles */\n              .preview-container \x7b\n                max-width: 800px;\n                margin: 0 auto;\n                padding: 20px;\n              \x7d\n              \n              /* Default spacing for demo elements */\n              .preview-container > * \x7b margin-bottom: 20px; \x7d\n              \n              /* User\x27s CSS */\n              ".toList

def cssPre1 : Str :=
  cssPre1a ++
  "<style>".toList ++
  cssPre1b

def cssPost1a : Str := "\n            ".toList

def cssPost1b : Str := "\n          </head>\n          <body>\n            <div class=\"preview-container\">\n              <header>\n                ".toList

def cssPost1c : Str := "\n                <nav>\n                  <a href=\"#\">Link 1</a>\n                  <a href=\"#\">Link 2</a>\n                  <a href=\"#\">Link 3</a>\n                </nav>\n              </header>\n              \n              <main>\n                <section class=\"section-1\">\n                  <h2>Section 1</h2>\n                  <p>This is a paragraph with <strong>bold</strong> and <em>italic</em> text.</p>\n                  ".toList

def cssPost1d : Str := "\n                  <button class=\"secondary-button\">Secondary Button</button>\n                </section>\n                \n                <section class=\"section-2\">\n                  <h3>Form Elements</h3>\n                  <form>\n                    <input type=\"text\" placeholder=\"Text input\">\n                    <input type=\"checkbox\" id=\"check1\"><label for=\"check1\">Checkbox</label>\n                    <select><option>Dropdown</option></select>\n                  </form>\n                </section>\n                \n                <div class=\"card\">\n                  <h3>Card Title</h3>\n                  <p>Card content with some text.</p>\n                </div>\n                \n                <div class=\"grid\">\n                  <div class=\"grid-item\">Grid Item 1</div>\n                  <div class=\"grid-item\">Grid Item 2</div>\n                  <div class=\"grid-item\">Grid Item 3</div>\n                </div>\n                \n                <footer>\n                  <p>Footer content</p>\n                  <div class=\"social-icons\">\n                    <span class=\"icon\">🌟</span>\n                    <span class=\"icon\">💫</span>\n                    <span class=\"icon\">✨</span>\n                  </div>\n                </footer>\n              </main>\n            </div>\n          </body>\n        </html>\n      ".toList

def cssPost1 : Str :=
  cssPost1a ++
  "</style>".toList ++
  cssPost1b ++
  "<h1>CSS Preview</h1>".toList ++
  cssPost1c ++
  "<button class=\"primary-button\">Primary Button</button>".toList ++
  cssPost1d

def jsPre1a : Str := "\n        <!DOCTYPE html>\n        <html>\n          <head>\n            <meta charset=\"utf-8\">\n            <meta name=\"viewport\" content=\"width=device-width, initial-scale=1.0\">\n            <style>\n              body \x7b \n                font-family: system-ui, -apple-system, sans-serif;\n                margin: 0;\n                padding: 20px;\n                background: #f8f9fa;\n              \x7d\n              #output \x7b \n                font-family: \x27Consolas\x27, \x27Monaco\x27, monospace;\n                white-space: pre-wrap;\n                padding: 15px;\n                background: #fff;\n                border: 1px solid #e9ecef;\n                border-radius: 6px;\n                margin-bottom: 15px;\n                max-height: 400px;\n                overflow-y: auto;\n              \x7d\n              #controls \x7b\n                margin-bottom: 15px;\n              \x7d\n              .error \x7b \n                color: #dc3545;\n                background: #ffe9e9;\n                padding: 10px;\n                border-radius: 4px;\n                margin: 10px 0;\n              \x7d\n              .log \x7b color: #0d6efd; \x7d\n              .info \x7b color: #198754; \x7d\n              .warn \x7b color: #ffc107; \x7d\n              .error-msg \x7b color: #dc3545; \x7d\n              button \x7b\n                background: #0d6efd;\n                color: white;\n                border: none;\n                padding: 8px 16px;\n                border-radius: 4px;\n                cursor: pointer;\n              \x7d\n              button:hover \x7b\n                background: #0b5ed7;\n              \x7d\n              #interactive-area \x7b\n                background: white;\n                padding: 15px;\n                border: 1px solid #e9ecef;\n                border-radius: 6px;\n                margin-top: 15px;\n              \x7d\n            </style>\n          </head>\n          <body>\n            <div id=\"controls\">\n              <button onclick=\"clearOutput()\">Clear Console</button>\n            </div>\n            <div id=\"output\"></div>\n            <div id=\"interactive-area\">\n              <h3>Interactive Area</h3>\n              <p>This area can be manipulated by your JavaScript code.</p>\n            </div>\n            <script>\n              // Create output element reference\n              const output = document.getElementById(\x27output\x27);\n              const interactiveArea = document.getElementById(\x27interactive-area\x27);\n              \n              // Clear output function\n              function clearOutput() \x7b\n                if (output) output.innerHTML = \x27\x27;\n              \x7d\n              \n              // Console overrides\n              const originalConsole = \x7b\n                log: console.log,\n                info: console.info,\n                warn: console.warn,\n                error: console.error\n              \x7d;\n              \n              // Helper to format values\n              function formatValue(value) \x7b\n                if (value === undefined) return \x27undefined\x27;\n                if (value === null) return \x27null\x27;\n                if (typeof value === \x27object\x27) \x7b\n                  try \x7b\n                    return JSON.stringify(value, null, 2);\n                  \x7d catch (err) \x7b\n                    return String(value);\n                  \x7d\n                \x7d\n                return String(value);\n              \x7d\n              \n              // Override console methods\n              console.log = function(...args) \x7b\n                if (output) \x7b\n                  const formattedArgs = args.map(formatValue).join(\x27 \x27);\n                  output.innerHTML += `<div class=\"log\">$\x7bformattedArgs\x7d</div>`;\n                \x7d\n                originalConsole.log.apply(console, args);\n              \x7d;\n              \n              console.info = function(...args) \x7b\n                if (output) \x7b\n                  const formattedArgs = args.map(formatValue).join(\x27 \x27);\n                  output.innerHTML += `<div class=\"info\">ℹ️ $\x7bformattedArgs\x7d</div>`;\n                \x7d\n                originalConsole.info.apply(console, args);\n              \x7d;\n              \n              console.warn = function(...args) \x7b\n                if (output) \x7b\n                  const formattedArgs = args.map(formatValue).join(\x27 \x27);\n                  output.innerHTML += `<div class=\"warn\">⚠️ $\x7bformattedArgs\x7d</div>`;\n                \x7d\n                originalConsole.warn.apply(console, args);\n              \x7d;\n              \n              console.error = function(...args) \x7b\n                if (output) \x7b\n                  const formattedArgs = args.map(formatValue).join(\x27 \x27);\n                  output.innerHTML += `<div class=\"error-msg\">🚫 $\x7bformattedArgs\x7d</div>`;\n                \x7d\n                originalConsole.error.apply(console, args);\n              \x7d;\n              \n              // Error handling\n              ".toList

def jsPre1b : Str := " = function(msg, url, line, col, error) \x7b\n                if (output) \x7b\n                  output.innerHTML += `<div class=\"error\">🚫 Error: $\x7bmsg\x7d\\nLine: $\x7bline\x7d, Column: $\x7bcol\x7d</div>`;\n                \x7d\n                return false;\n              \x7d;\n              \n              // Add error boundary\n              ".toList

def jsPre1 : Str :=
  jsPre1a ++
  "window.onerror".toList ++
  jsPre1b ++
  "try \x7b\n                // User\x27s code\n                ".toList

def jsPost1 : Str := "\n              \x7d catch (err) \x7b\n                console.error(\x27Runtime Error:\x27, err.message);\n              \x7d\n            </script>\n          </body>\n        </html>\n      ".toList

def htmlWrapPre2 : Str := "\n          <!DOCTYPE html>\n          <html>\n            <head>\n              <meta charset=\"utf-8\">\n              <meta name=\"viewport\" content=\"width=device-width, initial-scale=1.0\">\n            </head>\n            <body>\n              ".toList

def htmlWrapPost2 : Str := "\n            </body>\n          </html>\n        ".toList

def cssPre2 : Str := "\n        <!DOCTYPE html>\n        <html>\n          <head>\n            <meta charset=\"utf-8\">\n            <meta name=\"viewport\" content=\"width=device-width, initial-scale=1.0\">\n            <style>".toList

def cssPost2 : Str := "</style>\n          </head>\n          <body>\n            <div class=\"preview-container\">\n              <h1>Sample Heading</h1>\n              <p>Sample paragraph text</p>\n              <button>Sample Button</button>\n              <div class=\"sample-div\">Sample Div</div>\n              <a href=\"#\">Sample Link</a>\n            </div>\n          </body>\n        </html>\n      ".toList

def jsPre2a : Str := "\n        <!DOCTYPE html>\n        <html>\n          <head>\n            <meta charset=\"utf-8\">\n            <meta name=\"viewport\" content=\"width=device-width, initial-scale=1.0\">\n            <style>\n              #output \x7b \n                font-family: monospace;\n                white-space: pre-wrap;\n                padding: 10px;\n                background: #f5f5f5;\n              \x7d\n              .error \x7b color: red; \x7d\n            </style>\n          </head>\n          <body>\n            <div id=\"output\"></div>\n            <script>\n              // Redirect console.log to output div\n              const output = document.getElementById(\x27output\x27);\n              const originalLog = console.log;\n              console.log = function(...args) \x7b\n                if (output) \x7b\n                  output.innerHTML += args.map(arg => \n                    typeof arg === \x27object\x27 ? JSON.stringify(arg, null, 2) : String(arg)\n                  ).join(\x27 \x27) + \x27\\n\x27;\n                \x7d\n                originalLog.apply(console, args);\n              \x7d;\n              \n              // Add error handling\n              ".toList

def jsPre2b : Str := " = function(msg) \x7b\n                if (output) \x7b\n                  output.innerHTML += \x27<div class=\"error\">Error: \x27 + msg + \x27</div>\\n\x27;\n                \x7d\n                return false;\n              \x7d;\n\n              // Execute the extracted code\n              ".toList

def jsPre2 : Str :=
  jsPre2a ++
  "window.onerror".toList ++
  jsPre2b ++
  "try \x7b\n                ".toList

def jsPost2 : Str := "\n              \x7d catch (err) \x7b\n                console.log(\x27Error:\x27, err.message);\n              \x7d\n            </script>\n          </body>\n        </html>\n      ".toList

/-- The preview document builder `getPreviewContent` of lines 330-596 (first
revision).  The source returns `''` for absent code or an unsupported
language and otherwise an object URL backed by a blob holding the document;
this is modelled as `none` versus `some document`. -/
def getPreviewContent (code lang : Str) : Option Str :=
  if code = [] then none
  else
    let codeToRender := trimS code
    let low := lowerS lang
    if low = "html".toList then some codeToRender
    else if low = "css".toList then some (cssPre1 ++ codeToRender ++ cssPost1)
    else if low = "javascript".toList then some (jsPre1 ++ codeToRender ++ jsPost1)
    else none

/-- Root-document-marker test of lines 1626-1627: the trimmed, lower-cased
extracted code contains a doctype declaration or an `<html` tag. -/
def isCompleteHTML (extracted : Str) : Bool :=
  substrB "<!doctype".toList (lowerS (trimS extracted)) ||
  substrB "<html".toList (lowerS (trimS extracted))

/-- The preview document builder `getPreviewContent` of lines 1618-1727
(second revision).  It re-runs `extractCodeAndExplanation` on its input and,
for markup, either passes the extracted code through verbatim (when it
contains a root document marker) or wraps it in a minimal shell. -/
def getPreviewContent2 (code lang : Str) : Option Str :=
  if code = [] then none
  else
    let extracted := (extractCodeAndExplanation (some code) lang).1
    let low := lowerS lang
    if low = "html".toList then
      if isCompleteHTML extracted then some extracted
      else some (htmlWrapPre2 ++ extracted ++ htmlWrapPost2)
    else if low = "css".toList then some (cssPre2 ++ extracted ++ cssPost2)
    else if low = "javascript".toList then some (jsPre2 ++ extracted ++ jsPost2)
    else none

/-- Top-level outcome of running user script code: normal completion after a
list of logged lines, or an exception (with message) after some logs. -/
inductive ScriptOutcome where
  | ok (logs : List Str)
  | throws (logs : List Str) (msg : Str)

/-- Output-region entry produced by the first revision's console-log shim
(lines 530-536) for one logged line. -/
def logEntry1 (l : Str) : Str :=
  "<div class=\"log\">".toList ++ l ++ "</div>".toList

/-- Output-region entry produced by the first revision's guarded block when
the user code throws: the catch arm (lines 574-576) calls
`console.error('Runtime Error:', err.message)`, and the console-error shim
(lines 554-560) renders the joined arguments in an error-classed entry. -/
def errEntry1 (msg : Str) : Str :=
  "<div class=\"error-msg\">🚫 Runtime Error: ".toList ++ msg ++ "</div>".toList

/-- Execution model of the first revision's script harness (lines 497-577):
the user code runs inside `try ... catch`, so an exception is converted into
an error entry appended to the output region; the boolean records whether an
exception escapes the harness (it never does). -/
def runHarness1 : ScriptOutcome → List Str × Bool
  | .ok logs => (logs.map logEntry1, false)
  | .throws logs msg => (logs.map logEntry1 ++ [errEntry1 msg], false)

/-- Output-region entry of the second revision's console-log shim
(lines 1695-1702) for one logged line (a plain text line plus newline). -/
def logEntry2 (l : Str) : Str := l ++ "\n".toList

/-- Error entry of the second revision's guarded block: the catch arm
(lines 1715-1717) calls `console.log('Error:', err.message)`. -/
def errEntry2 (msg : Str) : Str := "Error: ".toList ++ msg ++ "\n".toList

/-- Execution model of the second revision's script harness
(lines 1691-1718). -/
def runHarness2 : ScriptOutcome → List Str × Bool
  | .ok logs => (logs.map logEntry2, false)
  | .throws logs msg => (logs.map logEntry2 ++ [errEntry2 msg], false)

/-!
Per-slot view state and render-resource registry.

Object URLs are modelled as natural-number handles drawn from a counter;
`created` records each handle with the slot it was created for, and `revoked`
the handles passed to `URL.revokeObjectURL`.  A slot's current resource is
`previewUrls[i]`.
-/

inductive ViewMode where
  | code
  | preview
deriving DecidableEq

/-- JavaScript array index assignment `a[i] = v`: in-range indices are
overwritten; an out-of-range assignment extends the array, padding any gap
with holes (modelled as `none`). -/
def padSet (l : List (Option Nat)) (i : Nat) (v : Option Nat) : List (Option Nat) :=
  match l, i with
  | [], 0 => [v]
  | [], i + 1 => none :: padSet [] i v
  | _ :: xs, 0 => v :: xs
  | x :: xs, i + 1 => x :: padSet xs i v

structure PanelState where
  lang : Str
  codes : List Str
  viewModes : Nat → Option ViewMode
  previewUrls : List (Option Nat)
  err : Option Str
  nextHandle : Nat
  created : List (Nat × Nat)
  revoked : List Nat

inductive RegEvent where
  | create (h slot : Nat)
  | revoke (h : Nat)
deriving DecidableEq

/-- The `Code → Preview` branch of `handleViewModeChange`, first revision
(lines 726-794): abort with an error message if the slot has no code, if the
classifier extracts nothing, or if no preview document can be built; otherwise
create the new object URL first, then revoke the slot's previous URL, then
install the new one. -/
def stepPreview1 (s : PanelState) (i : Nat) : PanelState × List RegEvent :=
  match s.codes.get? i with
  | none => ({ s with err := some "No code available for preview".toList }, [])
  | some c =>
    if c = [] then ({ s with err := some "No code available for preview".toList }, [])
    else
      let clean := (extractCodeAndExplanation (some c) s.lang).1
      if clean = [] then
        ({ s with err := some "Failed to extract code for preview".toList }, [])
      else
        match getPreviewContent clean s.lang with
        | none => ({ s with err := some "Failed to create preview".toList }, [])
        | some _doc =>
          let h := s.nextHandle
          let old := (s.previewUrls.get? i).join
          ({ s with
              viewModes := fun j => if j = i then some ViewMode.preview else s.viewModes j,
              previewUrls := padSet s.previewUrls i (some h),
              nextHandle := h + 1,
              created := (h, i) :: s.created,
              revoked := match old with
                | some o => o :: s.revoked
                | none => s.revoked },
           [RegEvent.create h i] ++ (match old with
                | some o => [RegEvent.revoke o]
                | none => []))

/-- The `Preview → Code` branch of `handleViewModeChange`, first revision
(lines 795-808): switch the view mode, then revoke and clear the slot's URL
if one is present. -/
def stepCode1 (s : PanelState) (i : Nat) : PanelState × List RegEvent :=
  let vm := fun j => if j = i then some ViewMode.code else s.viewModes j
  match (s.previewUrls.get? i).join with
  | some o =>
    ({ s with viewModes := vm, previewUrls := padSet s.previewUrls i none,
              revoked := o :: s.revoked },
     [RegEvent.revoke o])
  | none => ({ s with viewModes := vm }, [])

/-- `handleViewModeChange` of the first revision (lines 719-814). -/
def handleViewModeChange1 (s : PanelState) (i : Nat) :
    ViewMode → PanelState × List RegEvent
  | .preview => stepPreview1 s i
  | .code => stepCode1 s i

/-- The view-mode handler of the second revision (lines 1819-1855): the view
mode is switched unconditionally first; for `preview` the handler then builds
a URL from `codes[index + 1]`, revoking the old URL after the new one has been
created, and stores whatever the builder returned (a falsy result is stored as
an absent URL, with no error reported). -/
def stepPreview2 (s : PanelState) (i : Nat) : PanelState × List RegEvent :=
  let vm := fun j => if j = i then some ViewMode.preview else s.viewModes j
  let s1 := { s with viewModes := vm }
  match s1.codes.get? (i + 1) with
  | none => (s1, [])
  | some c =>
    if c = [] then (s1, [])
    else
      let old := (s.previewUrls.get? i).join
      match getPreviewContent2 c s.lang with
      | some _doc =>
        let h := s.nextHandle
        ({ s1 with
            previewUrls := padSet s.previewUrls i (some h),
            nextHandle := h + 1,
            created := (h, i) :: s.created,
            revoked := match old with
              | some o => o :: s.revoked
              | none => s.revoked },
         [RegEvent.create h i] ++ (match old with
              | some o => [RegEvent.revoke o]
              | none => []))
      | none =>
        ({ s1 with
            previewUrls := padSet s.previewUrls i none,
            revoked := match old with
              | some o => o :: s.revoked
              | none => s.revoked },
         match old with
           | some o => [RegEvent.revoke o]
           | none => [])

def stepCode2 (s : PanelState) (i : Nat) : PanelState × List RegEvent :=
  let vm := fun j => if j = i then some ViewMode.code else s.viewModes j
  match (s.previewUrls.get? i).join with
  | some o =>
    ({ s with viewModes := vm, previewUrls := padSet s.previewUrls i none,
              revoked := o :: s.revoked },
     [RegEvent.revoke o])
  | none => ({ s with viewModes := vm }, [])

def handleViewModeChange2 (s : PanelState) (i : Nat) :
    ViewMode → PanelState × List RegEvent
  | .preview => stepPreview2 s i
  | .code => stepCode2 s i

/-- Initial state: every slot in code view, no preview URLs, no resources. -/
def initPanel (lang : Str) (codes : List Str) : PanelState :=
  { lang := lang
    codes := codes
    viewModes := fun _ => some ViewMode.code
    previewUrls := codes.map fun _ => none
    err := none
    nextHandle := 0
    created := []
    revoked := [] }

/-- A well-formed language identifier: nonempty and alphabetic. -/
def LangOk (lang : Str) : Prop :=
  lang ≠ [] ∧ ∀ c ∈ lang, (Char.toLower c).isAlpha = true

/-- A fenced block: opening fence, optional language tag, newline, body,
newline, closing fence. -/
def fenceBlock (lang : Str) (tagged : Bool) (body : Str) : Str :=
  ticks ++ ((if tagged then lang else []) ++ ('\n' :: body ++ '\n' :: (ticks ++ [])))

/-- A sequence of fenced blocks, each followed by free separator text. -/
def mkFenced (lang : Str) : List (Bool × Str × Str) → Str
  | [] => []
  | (tg, body, sep) :: bs => fenceBlock lang tg body ++ sep ++ mkFenced lang bs

/-- Well-formedness of a block list: bodies and separators are free of
backticks. -/
def BlocksOk (bs : List (Bool × Str × Str)) : Prop :=
  ∀ blk ∈ bs, (∀ c ∈ blk.2.1, c ≠ '`') ∧ (∀ c ∈ blk.2.2, c ≠ '`')

theorem startsWith_length : ∀ {p s : Str}, startsWithS p s = true → p.length ≤ s.length := by
  intro p
  induction p with
  | nil => intro s _; simp
  | cons a as ih =>
    intro s h
    cases s with
    | nil => simp [startsWithS, List.isPrefixOf] at h
    | cons b bs =>
      simp only [startsWithS, List.isPrefixOf, Bool.and_eq_true, beq_iff_eq] at h
      have : as.length ≤ bs.length := ih (show startsWithS as bs = true from h.2)
      simp only [List.length_cons]
      omega

theorem findClose_length_le : ∀ {s cap rest : Str},
    findClose s = some (cap, rest) → rest.length + 3 ≤ s.length := by
  intro s
  induction s with
  | nil => intro cap rest h; simp [findClose] at h
  | cons c cs ih =>
    intro cap rest h
    rw [findClose] at h
    by_cases h1 : startsWithS ticks (c :: cs) = true
    · rw [if_pos h1] at h
      simp only [Option.some.injEq, Prod.mk.injEq] at h
      obtain ⟨-, hr⟩ := h
      subst hr
      have hl := startsWith_length h1
      have hd : (cs.drop 2).length = cs.length - 2 := List.length_drop 2 cs
      simp only [ticks, List.length_cons] at hl ⊢
      omega
    · rw [if_neg h1] at h
      by_cases h2 : (c = '\n' && startsWithS ticks cs) = true
      · rw [if_pos h2] at h
        simp only [Option.some.injEq, Prod.mk.injEq] at h
        obtain ⟨-, hr⟩ := h
        subst hr
        have hl := startsWith_length (Bool.and_elim_right h2)
        have hd : (cs.drop 3).length = cs.length - 3 := List.length_drop 3 cs
        simp only [ticks, List.length_cons] at hl ⊢
        omega
      · rw [if_neg h2] at h
        cases h3 : findClose cs with
        | none => rw [h3] at h; simp at h
        | some pr =>
          rw [h3] at h
          obtain ⟨cap', rest'⟩ := pr
          simp only [Option.some.injEq, Prod.mk.injEq] at h
          obtain ⟨-, hr⟩ := h
          subst hr
          have := ih h3
          simp only [List.length_cons]
          omega

theorem length_dropWhile_le (p : Char → Bool) : ∀ s : Str, (s.dropWhile p).length ≤ s.length := by
  intro s
  induction s with
  | nil => simp
  | cons c cs ih =>
    by_cases h : p c <;> simp [List.dropWhile_cons, h] <;> omega

theorem trimLeftS_length_le (s : Str) : (trimLeftS s).length ≤ s.length :=
  length_dropWhile_le wsChar s

theorem dropTag_length_le (lang s : Str) : (dropTag lang s).length ≤ s.length := by
  unfold dropTag
  split
  · simp [List.length_drop]
  · exact le_refl _

theorem scanFencesGo_irrel (lang : Str) :
    ∀ (f₁ f₂ : Nat) (text : Str), text.length ≤ f₁ → text.length ≤ f₂ →
      scanFencesGo lang f₁ text = scanFencesGo lang f₂ text := by
  intro f₁
  induction f₁ with
  | zero =>
    intro f₂ text h1 _
    have : text = [] := List.length_eq_zero.1 (by omega)
    subst this
    cases f₂ <;> rfl
  | succ f₁ ih =>
    intro f₂ text h1 h2
    cases text with
    | nil => cases f₂ <;> rfl
    | cons c cs =>
      cases f₂ with
      | zero => simp at h2
      | succ f₂ =>
        show scanFencesGo lang (f₁ + 1) (c :: cs) = scanFencesGo lang (f₂ + 1) (c :: cs)
        rw [scanFencesGo, scanFencesGo]
        simp only [List.length_cons] at h1 h2
        by_cases hsw : startsWithS ticks (c :: cs) = true
        · rw [if_pos hsw, if_pos hsw]
          cases hfc : findClose (trimLeftS (dropTag lang (cs.drop 2))) with
          | none => exact ih f₂ cs (by omega) (by omega)
          | some pr =>
            obtain ⟨cap, rest2⟩ := pr
            have hlen : rest2.length + 3 ≤ cs.length := by
              have a1 := findClose_length_le hfc
              have a2 := trimLeftS_length_le (dropTag lang (cs.drop 2))
              have a3 := dropTag_length_le lang (cs.drop 2)
              have a4 : (cs.drop 2).length = cs.length - 2 := List.length_drop 2 cs
              omega
            dsimp only
            rw [ih f₂ rest2 (by omega) (by omega)]
        · rw [if_neg hsw, if_neg hsw]
          exact ih f₂ cs (by omega) (by omega)

theorem scanFences_nil (lang : Str) : scanFences lang [] = [] := rfl

theorem scanFences_cons (lang : Str) (c : Char) (cs : Str) :
    scanFences lang (c :: cs) =
      if startsWithS ticks (c :: cs) then
        match findClose (trimLeftS (dropTag lang (cs.drop 2))) with
        | some (cap, rest2) => cap :: scanFences lang rest2
        | none => scanFences lang cs
      else scanFences lang cs := by
  show scanFencesGo lang (cs.length + 1) (c :: cs) = _
  rw [scanFencesGo]
  by_cases hsw : startsWithS ticks (c :: cs) = true
  · rw [if_pos hsw, if_pos hsw]
    cases hfc : findClose (trimLeftS (dropTag lang (cs.drop 2))) with
    | none => exact scanFencesGo_irrel lang cs.length cs.length cs (le_refl _) (le_refl _)
    | some pr =>
      obtain ⟨cap, rest2⟩ := pr
      have hlen : rest2.length + 3 ≤ cs.length := by
        have a1 := findClose_length_le hfc
        have a2 := trimLeftS_length_le (dropTag lang (cs.drop 2))
        have a3 := dropTag_length_le lang (cs.drop 2)
        have a4 : (cs.drop 2).length = cs.length - 2 := List.length_drop 2 cs
        omega
      dsimp only
      rw [scanFencesGo_irrel lang cs.length rest2.length rest2 (by omega) (le_refl _)]
      rfl
  · rw [if_neg hsw, if_neg hsw]
    rfl

theorem startsWith_self_append : ∀ (p r : Str), startsWithS p (p ++ r) = true := by
  intro p
  induction p with
  | nil => intro r; simp [startsWithS, List.isPrefixOf]
  | cons c cs ih =>
    intro r
    simp only [startsWithS, List.cons_append, List.isPrefixOf, beq_self_eq_true,
      Bool.true_and]
    exact ih r

theorem startsWith_ticks_head : ∀ {c : Char} {r : Str},
    startsWithS ticks (c :: r) = true → c = '`' := by
  intro c r h
  simp only [startsWithS, ticks, List.isPrefixOf, Bool.and_eq_true, beq_iff_eq] at h
  exact h.1.symm

theorem startsWith_ticks_false {c : Char} (r : Str) (hc : c ≠ '`') :
    startsWithS ticks (c :: r) = false := by
  by_contra h
  exact hc (startsWith_ticks_head (by simpa using h))

theorem drop_len_append : ∀ (a b : Str), (a ++ b).drop a.length = b := by
  intro a
  induction a with
  | nil => intro b; rfl
  | cons c cs ih => intro b; simpa using ih b

theorem ciPrefix_self_append (lang r : Str) : ciPrefix lang (lang ++ r) = true := by
  unfold ciPrefix lowerS
  rw [List.map_append]
  exact startsWith_self_append _ _

theorem dropTag_self_append (lang r : Str) : dropTag lang (lang ++ r) = r := by
  unfold dropTag
  rw [if_pos (ciPrefix_self_append lang r)]
  exact drop_len_append lang r

theorem ciPrefix_newline_false {lang : Str} (hl : LangOk lang) (r : Str) :
    ciPrefix lang ('\n' :: r) = false := by
  obtain ⟨hne, hal⟩ := hl
  cases lang with
  | nil => exact absurd rfl hne
  | cons c cs =>
    have hc : (Char.toLower c).isAlpha = true := hal c (List.mem_cons.2 (Or.inl rfl))
    have hcn : Char.toLower c ≠ '\n' := by
      intro h
      rw [h] at hc
      exact absurd hc (by decide)
    have hln : Char.toLower '\n' = '\n' := by decide
    have hbeq : (Char.toLower c == Char.toLower '\n') = false := by
      rw [beq_eq_false_iff_ne]
      intro h
      rw [hln] at h
      exact hcn h
    simp only [ciPrefix, lowerS, List.map_cons, List.isPrefixOf, hbeq,
      Bool.false_and]

theorem dropTag_newline {lang : Str} (hl : LangOk lang) (r : Str) :
    dropTag lang ('\n' :: r) = '\n' :: r := by
  unfold dropTag
  rw [if_neg]
  rw [ciPrefix_newline_false hl r]
  simp

theorem mem_dropWhile_subset {p : Char → Bool} :
    ∀ {a : Str} {x : Char}, x ∈ a.dropWhile p → x ∈ a := by
  intro a
  induction a with
  | nil => intro x h; simpa using h
  | cons c cs ih =>
    intro x h
    rw [List.dropWhile_cons] at h
    by_cases hc : p c = true
    · rw [if_pos hc] at h
      exact List.mem_cons.2 (Or.inr (ih h))
    · rw [if_neg hc] at h
      exact h

theorem dropWhile_append_of_ne {p : Char → Bool} :
    ∀ (a b : Str), a.dropWhile p ≠ [] → (a ++ b).dropWhile p = a.dropWhile p ++ b := by
  intro a
  induction a with
  | nil => intro b h; exact absurd rfl h
  | cons c cs ih =>
    intro b h
    by_cases hc : p c = true
    · rw [List.dropWhile_cons, if_pos hc] at h
      calc ((c :: cs) ++ b).dropWhile p
          = (cs ++ b).dropWhile p := by
            rw [List.cons_append, List.dropWhile_cons, if_pos hc]
        _ = cs.dropWhile p ++ b := ih b h
        _ = (c :: cs).dropWhile p ++ b := by
            rw [List.dropWhile_cons, if_pos hc]
    · calc ((c :: cs) ++ b).dropWhile p
          = c :: (cs ++ b) := by
            rw [List.cons_append, List.dropWhile_cons, if_neg hc]
        _ = (c :: cs) ++ b := by rw [List.cons_append]
        _ = (c :: cs).dropWhile p ++ b := by
            rw [List.dropWhile_cons, if_neg hc]

theorem dropWhile_append_of_nil {p : Char → Bool} :
    ∀ (a b : Str), a.dropWhile p = [] → (a ++ b).dropWhile p = b.dropWhile p := by
  intro a
  induction a with
  | nil => intro b _; rfl
  | cons c cs ih =>
    intro b h
    by_cases hc : p c = true
    · rw [List.dropWhile_cons, if_pos hc] at h
      rw [List.cons_append, List.dropWhile_cons, if_pos hc]
      exact ih b h
    · rw [List.dropWhile_cons, if_neg hc] at h
      exact absurd h (by simp)

theorem dropWhile_idem {p : Char → Bool} :
    ∀ (a : Str), (a.dropWhile p).dropWhile p = a.dropWhile p := by
  intro a
  induction a with
  | nil => rfl
  | cons c cs ih =>
    rw [List.dropWhile_cons]
    by_cases hc : p c = true
    · rw [if_pos hc]
      exact ih
    · rw [if_neg hc, List.dropWhile_cons, if_neg hc]

theorem trimS_trimLeftS (s : Str) : trimS (trimLeftS s) = trimS s := by
  unfold trimS trimLeftS
  rw [dropWhile_idem]

theorem findClose_no_tick : ∀ (b rest : Str), (∀ c ∈ b, c ≠ '`') →
    findClose (b ++ '\n' :: (ticks ++ rest)) = some (b, rest) := by
  intro b
  induction b with
  | nil =>
    intro rest _
    rw [List.nil_append, findClose]
    rw [startsWith_ticks_false _ (by decide)]
    rw [if_neg (by simp)]
    rw [if_pos]
    · show some ([], (ticks ++ rest).drop 3) = _
      rw [show ((ticks ++ rest).drop 3) = rest from drop_len_append ticks rest]
    · simp [startsWith_self_append]
  | cons d ds ih =>
    intro rest hb
    have hd : d ≠ '`' := hb d (List.mem_cons.2 (Or.inl rfl))
    rw [List.cons_append, findClose]
    rw [startsWith_ticks_false _ hd, if_neg (by simp)]
    have hsw : startsWithS ticks (ds ++ '\n' :: (ticks ++ rest)) = false := by
      cases ds with
      | nil => exact startsWith_ticks_false _ (by decide)
      | cons e es =>
        exact startsWith_ticks_false _ (hb e (List.mem_cons.2 (Or.inr (List.mem_cons.2 (Or.inl rfl)))))
    rw [if_neg]
    · rw [ih rest (fun c hc => hb c (List.mem_cons.2 (Or.inr hc)))]
    · rw [hsw]
      simp

theorem findClose_trimLeft_body (body rest : Str) (hb : ∀ c ∈ body, c ≠ '`') :
    findClose (trimLeftS (body ++ '\n' :: (ticks ++ rest))) =
      some (trimLeftS body, rest) := by
  by_cases hE : body.dropWhile wsChar = []
  · unfold trimLeftS
    rw [dropWhile_append_of_nil body _ hE, hE]
    rw [List.dropWhile_cons]
    rw [if_pos (by decide)]
    rw [show (ticks ++ rest).dropWhile wsChar = ticks ++ rest by
      show List.dropWhile wsChar ('`' :: ('`' :: '`' :: rest)) = '`' :: ('`' :: '`' :: rest)
      rw [List.dropWhile_cons]
      rw [if_neg (by decide)]]
    show findClose ('`' :: ('`' :: '`' :: rest)) = some ([], rest)
    rw [findClose]
    rw [if_pos (show startsWithS ticks ('`' :: ('`' :: '`' :: rest)) = true from
      startsWith_self_append ticks rest)]
    rfl
  · unfold trimLeftS
    rw [dropWhile_append_of_ne body _ hE]
    exact findClose_no_tick (body.dropWhile wsChar) rest
      (fun c hc => hb c (mem_dropWhile_subset hc))

theorem scanFences_rawFence (lang tagSrc body rest : Str)
    (hdrop : dropTag lang (tagSrc ++ (body ++ '\n' :: (ticks ++ rest))) =
      body ++ '\n' :: (ticks ++ rest))
    (hb : ∀ c ∈ body, c ≠ '`') :
    scanFences lang (ticks ++ (tagSrc ++ (body ++ '\n' :: (ticks ++ rest)))) =
      trimLeftS body :: scanFences lang rest := by
  show scanFences lang
      ('`' :: ('`' :: '`' :: (tagSrc ++ (body ++ '\n' :: (ticks ++ rest))))) = _
  rw [scanFences_cons]
  rw [if_pos (show startsWithS ticks
      ('`' :: ('`' :: '`' :: (tagSrc ++ (body ++ '\n' :: (ticks ++ rest))))) = true from
    startsWith_self_append ticks _)]
  have hred : ('`' :: '`' :: (tagSrc ++ (body ++ '\n' :: (ticks ++ rest)))).drop 2 =
      tagSrc ++ (body ++ '\n' :: (ticks ++ rest)) := rfl
  rw [hred, hdrop, findClose_trimLeft_body body rest hb]

theorem scanFences_skip : ∀ (lang a b : Str), (∀ c ∈ a, c ≠ '`') →
    scanFences lang (a ++ b) = scanFences lang b := by
  intro lang a
  induction a with
  | nil => intro b _; rfl
  | cons c cs ih =>
    intro b ha
    rw [List.cons_append, scanFences_cons]
    rw [if_neg]
    · exact ih b (fun x hx => ha x (List.mem_cons.2 (Or.inr hx)))
    · rw [startsWith_ticks_false _ (ha c (List.mem_cons.2 (Or.inl rfl)))]
      simp

theorem beforeTicks_append : ∀ (a b : Str), (∀ c ∈ a, c ≠ '`') →
    startsWithS ticks b = true → beforeTicks (a ++ b) = a := by
  intro a
  induction a with
  | nil =>
    intro b _ hb
    cases b with
    | nil => simp [startsWithS, ticks, List.isPrefixOf] at hb
    | cons d ds =>
      rw [List.nil_append, beforeTicks, if_pos hb]
  | cons c cs ih =>
    intro b ha hb
    rw [List.cons_append, beforeTicks]
    rw [if_neg]
    · rw [ih b (fun x hx => ha x (List.mem_cons.2 (Or.inr hx))) hb]
    · rw [startsWith_ticks_false _ (ha c (List.mem_cons.2 (Or.inl rfl)))]
      simp

theorem scanFences_fenceBlock (lang : Str) (hl : LangOk lang) (tg : Bool)
    (body rest : Str) (hb : ∀ c ∈ body, c ≠ '`') :
    scanFences lang (fenceBlock lang tg body ++ rest) =
      trimLeftS body :: scanFences lang rest := by
  have hshape : fenceBlock lang tg body ++ rest =
      ticks ++ ((if tg then lang else []) ++
        (('\n' :: body) ++ '\n' :: (ticks ++ rest))) := by
    unfold fenceBlock
    simp [List.append_assoc]
  rw [hshape]
  have hbody : ∀ c ∈ '\n' :: body, c ≠ '`' := by
    intro c hc
    rcases List.mem_cons.1 hc with h | h
    · subst h; decide
    · exact hb c h
  cases tg with
  | true =>
    rw [if_pos rfl]
    rw [scanFences_rawFence lang lang ('\n' :: body) rest
      (dropTag_self_append lang _) hbody]
    rw [show trimLeftS ('\n' :: body) = trimLeftS body from by
      unfold trimLeftS
      rw [List.dropWhile_cons, if_pos (by decide)]]
  | false =>
    rw [if_neg (by simp)]
    rw [show ([] : Str) ++ (('\n' :: body) ++ '\n' :: (ticks ++ rest)) =
        ('\n' :: body) ++ '\n' :: (ticks ++ rest) from List.nil_append _]
    rw [show ('\n' :: body) ++ '\n' :: (ticks ++ rest) =
        [] ++ (('\n' :: body) ++ '\n' :: (ticks ++ rest)) from rfl]
    rw [scanFences_rawFence lang [] ('\n' :: body) rest
      (by
        rw [List.nil_append]
        show dropTag lang ('\n' :: (body ++ '\n' :: (ticks ++ rest))) = _
        rw [dropTag_newline hl]
        rfl) hbody]
    rw [show trimLeftS ('\n' :: body) = trimLeftS body from by
      unfold trimLeftS
      rw [List.dropWhile_cons, if_pos (by decide)]]

theorem scanFences_mkFenced (lang : Str) (hl : LangOk lang) :
    ∀ bs : List (Bool × Str × Str), BlocksOk bs →
    scanFences lang (mkFenced lang bs) = bs.map (fun blk => trimLeftS blk.2.1) := by
  intro bs
  induction bs with
  | nil =>
    intro _
    rw [mkFenced]
    rfl
  | cons blk bs ih =>
    intro hok
    obtain ⟨tg, body, sep⟩ := blk
    have hblk := hok (tg, body, sep) (List.mem_cons.2 (Or.inl rfl))
    rw [mkFenced]
    rw [List.append_assoc]
    rw [scanFences_fenceBlock lang hl tg body (sep ++ mkFenced lang bs) hblk.1]
    rw [scanFences_skip lang sep (mkFenced lang bs) hblk.2]
    rw [ih (fun b hb => hok b (List.mem_cons.2 (Or.inr hb)))]
    rfl

theorem mkFenced_startsWith_ticks (lang : Str) (blk : Bool × Str × Str)
    (bs : List (Bool × Str × Str)) :
    startsWithS ticks (mkFenced lang (blk :: bs)) = true := by
  obtain ⟨tg, body, sep⟩ := blk
  rw [mkFenced]
  unfold fenceBlock
  rw [List.append_assoc, List.append_assoc]
  exact startsWith_self_append ticks _

theorem extract_mkFenced (lang pre : Str) (bs : List (Bool × Str × Str))
    (hl : LangOk lang) (hpre : ∀ c ∈ pre, c ≠ '`') (hbs : BlocksOk bs)
    (hne : bs ≠ []) :
    extractCodeAndExplanation (some (pre ++ mkFenced lang bs)) lang =
      (cleanupCode lang (joinSep "\n\n".toList
          ((bs.map (fun blk => trimS blk.2.1)).filter (· ≠ []))),
       joinSep "\n".toList
          ((splitNl pre).filter (fun l => decide (trimS l ≠ [])))) := by
  cases bs with
  | nil => exact absurd rfl hne
  | cons blk bs' =>
    have htickmk : startsWithS ticks (mkFenced lang (blk :: bs')) = true :=
      mkFenced_startsWith_ticks lang blk bs'
    have htne : pre ++ mkFenced lang (blk :: bs') ≠ [] := by
      intro h
      rcases List.append_eq_nil.1 h with ⟨-, h2⟩
      rw [h2] at htickmk
      simp [startsWithS, ticks, List.isPrefixOf] at htickmk
    have hscan : scanFences lang (pre ++ mkFenced lang (blk :: bs')) =
        (blk :: bs').map (fun b => trimLeftS b.2.1) := by
      rw [scanFences_skip lang pre _ hpre, scanFences_mkFenced lang hl _ hbs]
    unfold extractCodeAndExplanation
    dsimp only
    rw [if_neg htne]
    rw [hscan]
    rw [if_pos (by simp)]
    rw [beforeTicks_append pre _ hpre htickmk]
    rw [List.map_map]
    have hmapeq : (trimS ∘ fun (b : Bool × Str × Str) => trimLeftS b.2.1) =
        fun blk => trimS blk.2.1 := by
      funext b
      exact trimS_trimLeftS _
    rw [hmapeq]

/-!
Structure of the final cleanup filter's output: every line of the cleaned
code satisfies the allow-list predicate.
-/

theorem dropWhile_nil_iff {p : Char → Bool} :
    ∀ {l : Str}, l.dropWhile p = [] ↔ ∀ x ∈ l, p x = true := by
  intro l
  induction l with
  | nil => simp
  | cons c cs ih =>
    rw [List.dropWhile_cons]
    by_cases hc : p c = true
    · rw [if_pos hc]
      simp only [List.mem_cons]
      constructor
      · intro h x hx
        rcases hx with h' | h'
        · subst h'; exact hc
        · exact ih.1 h x h'
      · intro h
        exact ih.2 (fun x hx => h x (Or.inr hx))
    · rw [if_neg hc]
      simp only [List.mem_cons]
      constructor
      · intro h; exact absurd h (by simp)
      · intro h
        exact absurd (h c (Or.inl rfl)) hc

theorem trimRightS_nil_iff {s : Str} :
    trimRightS s = [] ↔ ∀ x ∈ s, wsChar x = true := by
  unfold trimRightS
  rw [List.reverse_eq_nil_iff]
  rw [dropWhile_nil_iff]
  constructor
  · intro h x hx
    exact h x (List.mem_reverse.2 hx)
  · intro h x hx
    exact h x (List.mem_reverse.1 hx)

theorem trimS_nil_of_allws {s : Str} (h : ∀ x ∈ s, wsChar x = true) :
    trimS s = [] := by
  unfold trimS
  rw [trimRightS_nil_iff]
  intro x hx
  exact h x (mem_dropWhile_subset hx)

theorem trimRightS_ne_nil_of_trimS {s : Str} (h : trimS s ≠ []) :
    trimRightS s ≠ [] := by
  intro hc
  exact h (trimS_nil_of_allws (trimRightS_nil_iff.1 hc))

theorem trimLeftS_ne_nil_of_trimS {s : Str} (h : trimS s ≠ []) :
    trimLeftS s ≠ [] := by
  intro hc
  apply h
  unfold trimS
  rw [hc]
  rfl

theorem trimRight_append_of_ne (a b : Str) (h : trimRightS b ≠ []) :
    trimRightS (a ++ b) = a ++ trimRightS b := by
  unfold trimRightS at h ⊢
  rw [List.reverse_append]
  rw [dropWhile_append_of_ne _ _ (by
    intro hc
    rw [hc] at h
    simp at h)]
  rw [List.reverse_append, List.reverse_reverse]

theorem trimRight_cons_of_ne (c : Char) (s : Str) (h : trimRightS s ≠ []) :
    trimRightS (c :: s) = c :: trimRightS s := by
  have : c :: s = [c] ++ s := rfl
  rw [this, trimRight_append_of_ne [c] s h]
  rfl

theorem mem_trimRightS_subset {s : Str} {x : Char} (h : x ∈ trimRightS s) : x ∈ s := by
  unfold trimRightS at h
  exact List.mem_reverse.1 (mem_dropWhile_subset (List.mem_reverse.1 h))

theorem mem_trimLeftS_subset {s : Str} {x : Char} (h : x ∈ trimLeftS s) : x ∈ s :=
  mem_dropWhile_subset h

theorem mem_trimS_subset {s : Str} {x : Char} (h : x ∈ trimS s) : x ∈ s :=
  mem_trimLeftS_subset (mem_trimRightS_subset h)

theorem trimS_trimLeftS_cons_ws {c : Char} (s : Str) (hc : wsChar c = true) :
    trimS (c :: s) = trimS s := by
  unfold trimS trimLeftS
  rw [List.dropWhile_cons, if_pos hc]

theorem splitNl_ne_nil : ∀ s : Str, splitNl s ≠ [] := by
  intro s
  cases s with
  | nil => simp [splitNl]
  | cons c cs =>
    rw [splitNl]
    by_cases hc : c = '\n'
    · rw [if_pos hc]; simp
    · rw [if_neg hc]
      cases h : splitNl cs with
      | nil => simp
      | cons l ls => simp

theorem splitNl_no_nl : ∀ (s : Str) (l : Str), l ∈ splitNl s → '\n' ∉ l := by
  intro s
  induction s with
  | nil =>
    intro l hl
    simp [splitNl] at hl
    subst hl
    simp
  | cons c cs ih =>
    intro l hl
    rw [splitNl] at hl
    by_cases hc : c = '\n'
    · rw [if_pos hc] at hl
      rcases List.mem_cons.1 hl with h | h
      · subst h; simp
      · exact ih l h
    · rw [if_neg hc] at hl
      cases h : splitNl cs with
      | nil => exact absurd h (splitNl_ne_nil cs)
      | cons f fs =>
        rw [h] at hl
        rcases List.mem_cons.1 hl with h' | h'
        · subst h'
          intro hmem
          rcases List.mem_cons.1 hmem with h'' | h''
          · exact hc h''.symm
          · exact ih f (h ▸ List.mem_cons.2 (Or.inl rfl)) h''
        · exact ih l (h ▸ List.mem_cons.2 (Or.inr h'))

theorem splitNl_single : ∀ (a : Str), '\n' ∉ a → splitNl a = [a] := by
  intro a
  induction a with
  | nil => intro _; rfl
  | cons c cs ih =>
    intro h
    rw [splitNl]
    have hc : ¬(c = '\n') := fun hcc => h (hcc ▸ List.mem_cons.2 (Or.inl rfl))
    rw [if_neg hc]
    rw [ih (fun hm => h (List.mem_cons.2 (Or.inr hm)))]

theorem splitNl_append_cons : ∀ (a b : Str), '\n' ∉ a →
    splitNl (a ++ '\n' :: b) = a :: splitNl b := by
  intro a
  induction a with
  | nil => intro b _; rw [List.nil_append, splitNl, if_pos rfl]
  | cons c cs ih =>
    intro b h
    rw [List.cons_append, splitNl]
    have hc : ¬(c = '\n') := fun hcc => h (hcc ▸ List.mem_cons.2 (Or.inl rfl))
    rw [if_neg hc]
    rw [ih b (fun hm => h (List.mem_cons.2 (Or.inr hm)))]

theorem splitNl_joinSep : ∀ (ls : List Str), ls ≠ [] → (∀ l ∈ ls, '\n' ∉ l) →
    splitNl (joinSep ['\n'] ls) = ls := by
  intro ls
  induction ls with
  | nil => intro h _; exact absurd rfl h
  | cons l ls ih =>
    intro _ hnl
    cases ls with
    | nil =>
      show splitNl l = [l]
      exact splitNl_single l (hnl l (List.mem_cons.2 (Or.inl rfl)))
    | cons g gs =>
      have hj : joinSep ['\n'] (l :: g :: gs) =
          l ++ '\n' :: joinSep ['\n'] (g :: gs) := by
        show (l ++ ['\n']) ++ joinSep ['\n'] (g :: gs) = _
        rw [List.append_assoc]
        rfl
      rw [hj]
      rw [splitNl_append_cons l _ (hnl l (List.mem_cons.2 (Or.inl rfl)))]
      rw [ih (by simp) (fun x hx => hnl x (List.mem_cons.2 (Or.inr hx)))]

theorem mem_joinSep : ∀ (sep : Str) (ls : List Str) (l : Str) (x : Char),
    l ∈ ls → x ∈ l → x ∈ joinSep sep ls := by
  intro sep ls
  induction ls with
  | nil => intro l x h _; simp at h
  | cons f fs ih =>
    intro l x hl hx
    cases fs with
    | nil =>
      rcases List.mem_cons.1 hl with h | h
      · subst h; exact hx
      · simp at h
    | cons g gs =>
      show x ∈ f ++ sep ++ joinSep sep (g :: gs)
      rcases List.mem_cons.1 hl with h | h
      · subst h
        exact List.mem_append.2 (Or.inl (List.mem_append.2 (Or.inl hx)))
      · exact List.mem_append.2 (Or.inr (ih l x h hx))

theorem trimRight_append_of_nil (a b : Str) (h : trimRightS b = []) :
    trimRightS (a ++ b) = trimRightS a := by
  unfold trimRightS at h ⊢
  rw [List.reverse_append]
  rw [dropWhile_append_of_nil _ _ (by
    rw [List.reverse_eq_nil_iff] at h
    exact h)]

theorem trimRightS_idem (s : Str) : trimRightS (trimRightS s) = trimRightS s := by
  unfold trimRightS
  rw [List.reverse_reverse, dropWhile_idem]

theorem trimLeft_trimRight_comm : ∀ s : Str,
    trimLeftS (trimRightS s) = trimRightS (trimLeftS s) := by
  intro s
  induction s with
  | nil => rfl
  | cons c s' ih =>
    by_cases hw : wsChar c = true
    · by_cases hr : trimRightS s' = []
      · have hall : ∀ x ∈ c :: s', wsChar x = true := by
          intro x hx
          rcases List.mem_cons.1 hx with h | h
          · subst h; exact hw
          · exact trimRightS_nil_iff.1 hr x h
        rw [trimRightS_nil_iff.2 hall]
        have h1 : trimLeftS (c :: s') = trimLeftS s' := by
          unfold trimLeftS
          rw [List.dropWhile_cons, if_pos hw]
        rw [h1]
        have h2 : trimLeftS s' = [] := by
          unfold trimLeftS
          exact dropWhile_nil_iff.2 (fun x hx => trimRightS_nil_iff.1 hr x hx)
        rw [h2]
        rfl
      · rw [trimRight_cons_of_ne c s' hr]
        have h1 : trimLeftS (c :: trimRightS s') = trimLeftS (trimRightS s') := by
          unfold trimLeftS
          rw [List.dropWhile_cons, if_pos hw]
        have h2 : trimLeftS (c :: s') = trimLeftS s' := by
          unfold trimLeftS
          rw [List.dropWhile_cons, if_pos hw]
        rw [h1, h2, ih]
    · have h2 : trimLeftS (c :: s') = c :: s' := by
        unfold trimLeftS
        rw [List.dropWhile_cons, if_neg hw]
      rw [h2]
      by_cases hr : trimRightS s' = []
      · have hc1 : trimRightS (c :: s') = [c] := by
          have : c :: s' = [c] ++ s' := rfl
          rw [this, trimRight_append_of_nil [c] s' hr]
          unfold trimRightS
          simp [List.dropWhile, hw]
        rw [hc1]
        unfold trimLeftS
        rw [List.dropWhile_cons, if_neg hw]
      · rw [trimRight_cons_of_ne c s' hr]
        unfold trimLeftS
        rw [List.dropWhile_cons, if_neg hw]

theorem trimS_trimRightS (s : Str) : trimS (trimRightS s) = trimS s := by
  unfold trimS
  rw [trimLeft_trimRight_comm, trimRightS_idem]

theorem trimRight_joinSep : ∀ (ls : List Str), ls ≠ [] →
    (∀ l ∈ ls, '\n' ∉ l ∧ trimS l ≠ []) →
    ∃ ls', trimRightS (joinSep ['\n'] ls) = joinSep ['\n'] ls' ∧ ls' ≠ [] ∧
      (∀ l' ∈ ls', '\n' ∉ l') ∧ ls'.map trimS = ls.map trimS := by
  intro ls
  induction ls with
  | nil => intro h; exact absurd rfl h
  | cons l ls ih =>
    intro _ hall
    cases ls with
    | nil =>
      refine ⟨[trimRightS l], rfl, by simp, ?_, ?_⟩
      · intro l' hl'
        rcases List.mem_cons.1 hl' with h | h
        · subst h
          intro hm
          exact (hall l (by simp)).1 (mem_trimRightS_subset hm)
        · simp at h
      · simp [trimS_trimRightS]
    | cons g gs =>
      obtain ⟨ls', h1, h2, h3, h4⟩ := ih (by simp)
        (fun x hx => hall x (List.mem_cons.2 (Or.inr hx)))
      have hnonws : trimRightS (joinSep ['\n'] (g :: gs)) ≠ [] := by
        have hg := hall g (List.mem_cons.2 (Or.inr (List.mem_cons.2 (Or.inl rfl))))
        obtain ⟨cg, hcg, hcw⟩ : ∃ c ∈ joinSep ['\n'] (g :: gs), wsChar c = false := by
          have hgne : trimS g ≠ [] := hg.2
          have : ¬ ∀ x ∈ g, wsChar x = true := by
            intro hc
            exact hgne (trimS_nil_of_allws hc)
          push_neg at this
          obtain ⟨cg, hcg, hcw⟩ := this
          exact ⟨cg, mem_joinSep ['\n'] (g :: gs) g cg (by simp) hcg,
            by simpa using hcw⟩
        intro hc
        rw [trimRightS_nil_iff] at hc
        rw [hc cg hcg] at hcw
        exact Bool.noConfusion hcw
      have hj : joinSep ['\n'] (l :: g :: gs) =
          l ++ '\n' :: joinSep ['\n'] (g :: gs) := by
        show (l ++ ['\n']) ++ joinSep ['\n'] (g :: gs) = _
        rw [List.append_assoc]
        rfl
      have hcons : trimRightS ('\n' :: joinSep ['\n'] (g :: gs)) =
          '\n' :: trimRightS (joinSep ['\n'] (g :: gs)) :=
        trimRight_cons_of_ne '\n' _ hnonws
      refine ⟨l :: ls', ?_, by simp, ?_, ?_⟩
      · rw [hj]
        rw [trimRight_append_of_ne l _ (by
          rw [hcons]
          simp)]
        rw [hcons, h1]
        cases hls' : ls' with
        | nil => exact absurd hls' h2
        | cons f fs =>
          show l ++ '\n' :: joinSep ['\n'] (f :: fs) = (l ++ ['\n']) ++ joinSep ['\n'] (f :: fs)
          rw [List.append_assoc]
          rfl
      · intro l' hl'
        rcases List.mem_cons.1 hl' with h | h
        · rw [h]
          exact (hall l (by simp)).1
        · exact h3 l' h
      · show trimS l :: List.map trimS ls' = trimS l :: List.map trimS (g :: gs)
        rw [h4]

theorem keepT_ne_nil {lang t : Str} (h : keepT lang t = true) : t ≠ [] := by
  unfold keepT at h
  rw [Bool.and_eq_true] at h
  exact of_decide_eq_true h.1

theorem trimLeft_joinSep (f : Str) (fs : List Str) (hf : trimLeftS f ≠ []) :
    trimLeftS (joinSep ['\n'] (f :: fs)) = joinSep ['\n'] (trimLeftS f :: fs) := by
  cases fs with
  | nil => rfl
  | cons g gs =>
    have hj1 : joinSep ['\n'] (f :: g :: gs) =
        f ++ '\n' :: joinSep ['\n'] (g :: gs) := by
      show (f ++ ['\n']) ++ joinSep ['\n'] (g :: gs) = _
      rw [List.append_assoc]
      rfl
    have hj2 : joinSep ['\n'] (trimLeftS f :: g :: gs) =
        trimLeftS f ++ '\n' :: joinSep ['\n'] (g :: gs) := by
      show (trimLeftS f ++ ['\n']) ++ joinSep ['\n'] (g :: gs) = _
      rw [List.append_assoc]
      rfl
    rw [hj1, hj2]
    unfold trimLeftS
    exact dropWhile_append_of_ne f _ hf

theorem cleanupCode_lines (lang s : Str) (hne : cleanupCode lang s ≠ []) :
    ∀ l ∈ splitNl (cleanupCode lang s), keepT lang (trimS l) = true := by
  cases hFL : (splitNl s).filter (keepLine lang) with
  | nil =>
    exfalso
    apply hne
    unfold cleanupCode
    rw [hFL]
    rfl
  | cons f FL' =>
    have hmem : ∀ x ∈ f :: FL', keepLine lang x = true ∧ x ∈ splitNl s := by
      intro x hx
      have hx' : x ∈ (splitNl s).filter (keepLine lang) := hFL ▸ hx
      exact ⟨(List.mem_filter.1 hx').2, (List.mem_filter.1 hx').1⟩
    have hprop : ∀ x ∈ f :: FL', '\n' ∉ x ∧ trimS x ≠ [] := by
      intro x hx
      obtain ⟨hk, hsp⟩ := hmem x hx
      exact ⟨splitNl_no_nl s x hsp, keepT_ne_nil hk⟩
    have hstep1 : cleanupCode lang s =
        trimRightS (joinSep ['\n'] (trimLeftS f :: FL')) := by
      unfold cleanupCode trimS
      rw [hFL]
      rw [show ("\n".toList : Str) = ['\n'] from rfl]
      rw [trimLeft_joinSep f FL'
        (trimLeftS_ne_nil_of_trimS (hprop f (by simp)).2)]
    have hcond : ∀ x ∈ trimLeftS f :: FL', '\n' ∉ x ∧ trimS x ≠ [] := by
      intro x hx
      rcases List.mem_cons.1 hx with h | h
      · constructor
        · rw [h]
          intro hm
          exact (hprop f (by simp)).1 (mem_trimLeftS_subset hm)
        · rw [h, trimS_trimLeftS]
          exact (hprop f (by simp)).2
      · exact hprop x (List.mem_cons.2 (Or.inr h))
    obtain ⟨ls', h1, h2, h3, h4⟩ :=
      trimRight_joinSep (trimLeftS f :: FL') (by simp) hcond
    rw [hstep1, h1]
    rw [splitNl_joinSep ls' h2 h3]
    intro l hl
    have hmm : trimS l ∈ ls'.map trimS := List.mem_map_of_mem trimS hl
    rw [h4] at hmm
    obtain ⟨g, hg, hgeq⟩ := List.mem_map.1 hmm
    rcases List.mem_cons.1 hg with h | h
    · rw [← hgeq, h, trimS_trimLeftS]
      exact (hmem f (by simp)).1
    · rw [← hgeq]
      exact (hmem g (List.mem_cons.2 (Or.inr h))).1

/-!
Claim theorems.
-/

/-- C7: for every language, classifying an absent input (JavaScript `null` or
`undefined`, both modelled as `none`) yields empty code and empty
explanation; `extractCodeAndExplanation` is a total function, so it never
throws. -/
theorem c7_classify_absent (lang : Str) :
    extractCodeAndExplanation none lang = ([], []) := rfl

/-- C6: both revisions of the preview builder return the no-preview sentinel
(`''`, modelled as `none`) for empty code with every language, and for every
code string when the lower-cased language is not one of the three supported
preview languages. -/
theorem c6_buildPreview_none (lang code : Str) :
    (getPreviewContent [] lang = none ∧ getPreviewContent2 [] lang = none) ∧
    (lowerS lang ≠ "html".toList → lowerS lang ≠ "css".toList →
      lowerS lang ≠ "javascript".toList →
      getPreviewContent code lang = none ∧
      getPreviewContent2 code lang = none) := by
  refine ⟨⟨rfl, rfl⟩, fun h1 h2 h3 => ⟨?_, ?_⟩⟩
  · unfold getPreviewContent
    by_cases hc : code = []
    · rw [if_pos hc]
    · rw [if_neg hc]
      rw [if_neg h1, if_neg h2, if_neg h3]
  · unfold getPreviewContent2
    by_cases hc : code = []
    · rw [if_pos hc]
    · rw [if_neg hc]
      rw [if_neg h1, if_neg h2, if_neg h3]

theorem c6_buildPreview_none_witness :
    getPreviewContent [] "html".toList = none ∧
    getPreviewContent2 [] "html".toList = none ∧
    getPreviewContent [] "css".toList = none ∧
    getPreviewContent2 [] "css".toList = none ∧
    getPreviewContent [] "javascript".toList = none ∧
    getPreviewContent2 [] "javascript".toList = none ∧
    getPreviewContent "print(1)".toList "python".toList = none ∧
    getPreviewContent2 "print(1)".toList "python".toList = none :=
  ⟨(c6_buildPreview_none "html".toList []).1.1,
   (c6_buildPreview_none "html".toList []).1.2,
   (c6_buildPreview_none "css".toList []).1.1,
   (c6_buildPreview_none "css".toList []).1.2,
   (c6_buildPreview_none "javascript".toList []).1.1,
   (c6_buildPreview_none "javascript".toList []).1.2,
   ((c6_buildPreview_none "python".toList "print(1)".toList).2
     (by decide) (by decide) (by decide)).1,
   ((c6_buildPreview_none "python".toList "print(1)".toList).2
     (by decide) (by decide) (by decide)).2⟩

theorem extract_code_is_cleanup (text : Option Str) (lang : Str) :
    (extractCodeAndExplanation text lang).1 = [] ∨
    ∃ X, (extractCodeAndExplanation text lang).1 = cleanupCode lang X := by
  cases text with
  | none => exact Or.inl rfl
  | some t =>
    by_cases ht : t = []
    · left
      unfold extractCodeAndExplanation
      dsimp only
      rw [if_pos ht]
    · right
      unfold extractCodeAndExplanation
      dsimp only
      rw [if_neg ht]
      by_cases hb : (scanFences lang t).length > 0
      · rw [if_pos hb]
        exact ⟨_, rfl⟩
      · rw [if_neg hb]
        exact ⟨_, rfl⟩

theorem keepT_closing (lang : Str) :
    keepT lang ['}'] = false ∧ keepT lang [')'] = false ∧
    keepT lang [']'] = false := by
  refine ⟨?_, ?_, ?_⟩ <;>
    simp [keepT, firstCharTest, allowHead, startsWithS, List.isPrefixOf,
      htmlCmtSearch, cmtHead, trimLeftS]

/-- C10: every line of the code string returned by the classifier passes the
final allow-list filter `keepT` (first character in the allow list, or a
comment whose marker is followed by a word or `@` character, or a bare
close-comment line); consequently no returned line is a lone closing brace,
parenthesis or bracket. -/
theorem c10_allowlist_filter (text : Option Str) (lang : Str) (l : Str)
    (hl : l ∈ splitNl (extractCodeAndExplanation text lang).1)
    (hne : (extractCodeAndExplanation text lang).1 ≠ []) :
    keepT lang (trimS l) = true ∧ trimS l ≠ ['}'] ∧ trimS l ≠ [')'] ∧
    trimS l ≠ [']'] := by
  rcases extract_code_is_cleanup text lang with h | ⟨X, h⟩
  · exact absurd h hne
  · rw [h] at hl hne
    have hk := cleanupCode_lines lang X hne l hl
    obtain ⟨k1, k2, k3⟩ := keepT_closing lang
    refine ⟨hk, ?_, ?_, ?_⟩
    · intro he
      rw [he, k1] at hk
      exact Bool.noConfusion hk
    · intro he
      rw [he, k2] at hk
      exact Bool.noConfusion hk
    · intro he
      rw [he, k3] at hk
      exact Bool.noConfusion hk

theorem c10_allowlist_filter_witness :
    ("body \x7b color: red; \x7d".toList ∈
      splitNl (extractCodeAndExplanation
        (some "body \x7b color: red; \x7d\n\x7d".toList) "css".toList).1 ∧
     (extractCodeAndExplanation
        (some "body \x7b color: red; \x7d\n\x7d".toList) "css".toList).1 ≠ []) ∧
    (keepT "css".toList (trimS "body \x7b color: red; \x7d".toList) = true ∧
     trimS "body \x7b color: red; \x7d".toList ≠ ['}'] ∧
     trimS "body \x7b color: red; \x7d".toList ≠ [')'] ∧
     trimS "body \x7b color: red; \x7d".toList ≠ [']']) :=
  ⟨⟨by decide, by decide⟩,
   c10_allowlist_filter (some "body \x7b color: red; \x7d\n\x7d".toList)
     "css".toList "body \x7b color: red; \x7d".toList (by decide) (by decide)⟩

/-- C4 counterexample: the first revision's markup preview does not wrap
marker-less code in a document shell; the trimmed code is used verbatim, with
no head or charset metadata introduced. -/
theorem c4_counterexample :
    getPreviewContent "<button>Hi</button>".toList "html".toList =
      some "<button>Hi</button>".toList ∧
    substrB "<head>".toList "<button>Hi</button>".toList = false ∧
    substrB "charset".toList "<button>Hi</button>".toList = false := by
  refine ⟨by decide, by decide, by decide⟩

/-- C4 amended: the second revision implements the claim on the re-extracted
code — verbatim when a root document marker (`<!doctype` or `<html`,
case-insensitive) is present, otherwise wrapped in a minimal shell with
charset and viewport metadata and the code in the body; the first revision
returns the trimmed markup code verbatim in every case, introducing no
shell. -/
theorem c4_amended (code : Str) (hc : code ≠ []) :
    getPreviewContent code "html".toList = some (trimS code) ∧
    (isCompleteHTML (extractCodeAndExplanation (some code) "html".toList).1 = true →
      getPreviewContent2 code "html".toList =
        some (extractCodeAndExplanation (some code) "html".toList).1) ∧
    (isCompleteHTML (extractCodeAndExplanation (some code) "html".toList).1 = false →
      getPreviewContent2 code "html".toList =
        some (htmlWrapPre2 ++
          (extractCodeAndExplanation (some code) "html".toList).1 ++ htmlWrapPost2) ∧
      substrB "charset".toList htmlWrapPre2 = true ∧
      substrB "viewport".toList htmlWrapPre2 = true ∧
      substrB "<body>".toList htmlWrapPre2 = true) := by
  refine ⟨?_, ?_, ?_⟩
  · unfold getPreviewContent
    rw [if_neg hc]
    rfl
  · intro hm
    unfold getPreviewContent2
    rw [if_neg hc]
    show (if isCompleteHTML (extractCodeAndExplanation (some code) "html".toList).1 = true
        then some (extractCodeAndExplanation (some code) "html".toList).1
        else some (htmlWrapPre2 ++
          (extractCodeAndExplanation (some code) "html".toList).1 ++ htmlWrapPost2)) = _
    rw [if_pos hm]
  · intro hm
    refine ⟨?_, by decide, by decide, by decide⟩
    unfold getPreviewContent2
    rw [if_neg hc]
    show (if isCompleteHTML (extractCodeAndExplanation (some code) "html".toList).1 = true
        then some (extractCodeAndExplanation (some code) "html".toList).1
        else some (htmlWrapPre2 ++
          (extractCodeAndExplanation (some code) "html".toList).1 ++ htmlWrapPost2)) = _
    rw [if_neg (by rw [hm]; exact Bool.false_ne_true)]

theorem c4_amended_witness :
    ("<p>x</p>".toList ≠ ([] : Str)) ∧
    getPreviewContent "<p>x</p>".toList "html".toList =
      some (trimS "<p>x</p>".toList) ∧
    (isCompleteHTML (extractCodeAndExplanation
        (some "<p>x</p>".toList) "html".toList).1 = false →
      getPreviewContent2 "<p>x</p>".toList "html".toList =
        some (htmlWrapPre2 ++
          (extractCodeAndExplanation (some "<p>x</p>".toList) "html".toList).1 ++
          htmlWrapPost2) ∧
      substrB "charset".toList htmlWrapPre2 = true ∧
      substrB "viewport".toList htmlWrapPre2 = true ∧
      substrB "<body>".toList htmlWrapPre2 = true) :=
  ⟨by decide, (c4_amended "<p>x</p>".toList (by decide)).1,
   (c4_amended "<p>x</p>".toList (by decide)).2.2⟩

/-- C9 counterexample: for the stylesheet input consisting of a single
closing brace, the second revision's builder re-extracts the code, the
cleanup filter removes the brace-only line, and the produced document does
not contain the supplied rule text at all — the rules are not injected as
supplied. -/
theorem c9_counterexample :
    getPreviewContent2 ['}'] "css".toList = some (cssPre2 ++ [] ++ cssPost2) ∧
    substrB ['}'] (cssPre2 ++ [] ++ cssPost2) = false := by
  refine ⟨by decide, by decide⟩

/-- C9 amended: both builders always produce a document containing the fixed
sample-body markers (a heading and a button) inside a style-bearing shell;
the first revision injects the trimmed supplied rules into the style block,
while the second revision injects the classifier-extracted form of the
supplied rules, which can differ from the rules as supplied. -/
theorem c9_amended (code : Str) (hc : code ≠ []) :
    getPreviewContent code "css".toList =
      some (cssPre1 ++ trimS code ++ cssPost1) ∧
    getPreviewContent2 code "css".toList =
      some (cssPre2 ++
        (extractCodeAndExplanation (some code) "css".toList).1 ++ cssPost2) ∧
    cssPre1 = cssPre1a ++ "<style>".toList ++ cssPre1b ∧
    cssPost1 = cssPost1a ++ "</style>".toList ++ cssPost1b ++
      "<h1>CSS Preview</h1>".toList ++ cssPost1c ++
      "<button class=\"primary-button\">Primary Button</button>".toList ++
      cssPost1d ∧
    substrB "<style>".toList cssPre2 = true ∧
    substrB "</style>".toList cssPost2 = true ∧
    substrB "<h1>".toList cssPost2 = true ∧
    substrB "<button>".toList cssPost2 = true := by
  refine ⟨?_, ?_, rfl, rfl, by decide, by decide, by decide, by decide⟩
  · unfold getPreviewContent
    rw [if_neg hc]
    rfl
  · unfold getPreviewContent2
    rw [if_neg hc]
    rfl

theorem c9_amended_witness :
    ("h1 \x7b color: red; \x7d".toList ≠ ([] : Str)) ∧
    getPreviewContent "h1 \x7b color: red; \x7d".toList "css".toList =
      some (cssPre1 ++ trimS "h1 \x7b color: red; \x7d".toList ++ cssPost1) ∧
    getPreviewContent2 "h1 \x7b color: red; \x7d".toList "css".toList =
      some (cssPre2 ++ (extractCodeAndExplanation
        (some "h1 \x7b color: red; \x7d".toList) "css".toList).1 ++ cssPost2) :=
  ⟨by decide, (c9_amended "h1 \x7b color: red; \x7d".toList (by decide)).1,
   (c9_amended "h1 \x7b color: red; \x7d".toList (by decide)).2.1⟩

/-- C8: both revisions of the script preview place the code inside a
`try ... catch` guard after installing a `window.onerror` handler (visible in
the structural decomposition of the templates), and the execution model of
the harness converts a top-level exception into an error entry appended to
the output region, with no exception escaping the document. -/
theorem c8_script_guard (code msg : Str) (logs : List Str) (hc : code ≠ []) :
    getPreviewContent code "javascript".toList =
      some (jsPre1 ++ trimS code ++ jsPost1) ∧
    getPreviewContent2 code "javascript".toList =
      some (jsPre2 ++
        (extractCodeAndExplanation (some code) "javascript".toList).1 ++ jsPost2) ∧
    jsPre1 = jsPre1a ++ "window.onerror".toList ++ jsPre1b ++
      "try \x7b\n                // User\x27s code\n                ".toList ∧
    startsWithS "\n              \x7d catch (err) \x7b\n                console.error(\x27Runtime Error:\x27, err.message);".toList
      jsPost1 = true ∧
    jsPre2 = jsPre2a ++ "window.onerror".toList ++ jsPre2b ++
      "try \x7b\n                ".toList ∧
    startsWithS "\n              \x7d catch (err) \x7b\n                console.log(\x27Error:\x27, err.message);".toList
      jsPost2 = true ∧
    runHarness1 (ScriptOutcome.throws logs msg) =
      (logs.map logEntry1 ++ [errEntry1 msg], false) ∧
    errEntry1 msg ∈ (runHarness1 (ScriptOutcome.throws logs msg)).1 ∧
    (runHarness1 (ScriptOutcome.throws logs msg)).2 = false ∧
    runHarness2 (ScriptOutcome.throws logs msg) =
      (logs.map logEntry2 ++ [errEntry2 msg], false) ∧
    errEntry2 msg ∈ (runHarness2 (ScriptOutcome.throws logs msg)).1 ∧
    (runHarness2 (ScriptOutcome.throws logs msg)).2 = false := by
  refine ⟨?_, ?_, rfl, by decide, rfl, by decide, rfl, ?_, rfl, rfl, ?_, rfl⟩
  · unfold getPreviewContent
    rw [if_neg hc]
    rfl
  · unfold getPreviewContent2
    rw [if_neg hc]
    rfl
  · show errEntry1 msg ∈ logs.map logEntry1 ++ [errEntry1 msg]
    exact List.mem_append.2 (Or.inr (List.mem_cons.2 (Or.inl rfl)))
  · show errEntry2 msg ∈ logs.map logEntry2 ++ [errEntry2 msg]
    exact List.mem_append.2 (Or.inr (List.mem_cons.2 (Or.inl rfl)))

theorem c8_script_guard_witness :
    ("throw 1".toList ≠ ([] : Str)) ∧
    getPreviewContent "throw 1".toList "javascript".toList =
      some (jsPre1 ++ trimS "throw 1".toList ++ jsPost1) ∧
    runHarness1 (ScriptOutcome.throws [] "boom".toList) =
      ([errEntry1 "boom".toList], false) :=
  ⟨by decide,
   (c8_script_guard "throw 1".toList "boom".toList [] (by decide)).1,
   (c8_script_guard "throw 1".toList "boom".toList [] (by decide)).2.2.2.2.2.2.1⟩

/-- C5 counterexample: the second revision's handler, asked to switch slot 0
to preview while the corresponding code slot is empty, switches the view mode
anyway, installs nothing and reports no error, instead of aborting in code
view with a reported condition. -/
theorem c5_counterexample :
    (handleViewModeChange2
      { lang := "html".toList, codes := [['x'], []],
        viewModes := fun _ => some ViewMode.code,
        previewUrls := [none, none], err := none, nextHandle := 0,
        created := [], revoked := [] } 0 ViewMode.preview).1.viewModes 0 =
      some ViewMode.preview ∧
    (handleViewModeChange2
      { lang := "html".toList, codes := [['x'], []],
        viewModes := fun _ => some ViewMode.code,
        previewUrls := [none, none], err := none, nextHandle := 0,
        created := [], revoked := [] } 0 ViewMode.preview).1.err = none ∧
    (handleViewModeChange2
      { lang := "html".toList, codes := [['x'], []],
        viewModes := fun _ => some ViewMode.code,
        previewUrls := [none, none], err := none, nextHandle := 0,
        created := [], revoked := [] } 0 ViewMode.preview).1.previewUrls =
      [none, none] := by
  refine ⟨rfl, rfl, rfl⟩

/-- C5 amended: the first revision's handler implements the claim — when the
slot has no code, the classifier extracts nothing, or no preview document can
be built, the `Code → Preview` transition is aborted with the view modes,
preview URLs and registry unchanged and an error message recorded; the second
revision's handler does not (it switches the view mode first). -/
theorem c5_amended (s : PanelState) (i : Nat)
    (hfail : s.codes.get? i = none ∨ s.codes.get? i = some [] ∨
      (∃ c, s.codes.get? i = some c ∧ c ≠ [] ∧
        ((extractCodeAndExplanation (some c) s.lang).1 = [] ∨
          getPreviewContent (extractCodeAndExplanation (some c) s.lang).1
            s.lang = none))) :
    (handleViewModeChange1 s i ViewMode.preview).1.viewModes = s.viewModes ∧
    (handleViewModeChange1 s i ViewMode.preview).1.previewUrls = s.previewUrls ∧
    (handleViewModeChange1 s i ViewMode.preview).1.created = s.created ∧
    (handleViewModeChange1 s i ViewMode.preview).1.revoked = s.revoked ∧
    (handleViewModeChange1 s i ViewMode.preview).1.err.isSome = true := by
  show (stepPreview1 s i).1.viewModes = s.viewModes ∧
    (stepPreview1 s i).1.previewUrls = s.previewUrls ∧
    (stepPreview1 s i).1.created = s.created ∧
    (stepPreview1 s i).1.revoked = s.revoked ∧
    (stepPreview1 s i).1.err.isSome = true
  unfold stepPreview1
  rcases hfail with hnone | hempty | ⟨c, hc, hcne, hrest⟩
  · rw [hnone]
    exact ⟨rfl, rfl, rfl, rfl, rfl⟩
  · rw [hempty]
    exact ⟨rfl, rfl, rfl, rfl, rfl⟩
  · rw [hc]
    dsimp only
    rw [if_neg hcne]
    rcases hrest with hclean | hbuild
    · rw [if_pos hclean]
      exact ⟨rfl, rfl, rfl, rfl, rfl⟩
    · by_cases hclean : (extractCodeAndExplanation (some c) s.lang).1 = []
      · rw [if_pos hclean]
        exact ⟨rfl, rfl, rfl, rfl, rfl⟩
      · rw [if_neg hclean]
        rw [hbuild]
        exact ⟨rfl, rfl, rfl, rfl, rfl⟩

theorem c5_amended_witness :
    ((initPanel "html".toList [[]]).codes.get? 0 = some [] ∨
      (initPanel "html".toList [[]]).codes.get? 0 = none ∨ False) ∧
    (handleViewModeChange1 (initPanel "html".toList [[]]) 0
      ViewMode.preview).1.err.isSome = true :=
  ⟨Or.inl rfl,
   (c5_amended (initPanel "html".toList [[]]) 0 (Or.inr (Or.inl rfl))).2.2.2.2⟩

/-- C2 counterexample: for the CSS fence "```css\nbody \x7b\ncolor: red;\n\x7d\n```"
the classifier does not return the trimmed fence contents: the final
allow-list cleanup drops the lone closing-brace line, so the returned code
is missing the rule terminator present in the fenced block. -/
theorem c2_counterexample :
    (extractCodeAndExplanation
      (some "```css\nbody \x7b\ncolor: red;\n\x7d\n```".toList) "css".toList).1 =
      "body \x7b\ncolor: red;".toList ∧
    "body \x7b\ncolor: red;".toList ≠ "body \x7b\ncolor: red;\n\x7d".toList := by
  exact ⟨rfl, by decide⟩

/-- C2 amended: for raw input consisting of free text (backtick-free) followed
by one or more fenced blocks, each optionally tagged with the target language
and separated by backtick-free text, the returned code is the final allow-list
cleanup of the blank-line-joined concatenation of the trimmed fence contents
in document order (not that concatenation itself), and the explanation is the
free text preceding the first fence with blank lines dropped. -/
theorem c2_amended (lang pre : Str) (bs : List (Bool × Str × Str))
    (hl : LangOk lang) (hpre : ∀ c ∈ pre, c ≠ '`') (hbs : BlocksOk bs)
    (hne : bs ≠ []) :
    extractCodeAndExplanation (some (pre ++ mkFenced lang bs)) lang =
      (cleanupCode lang (joinSep "\n\n".toList
          ((bs.map (fun blk => trimS blk.2.1)).filter (· ≠ []))),
       joinSep "\n".toList
          ((splitNl pre).filter (fun l => decide (trimS l ≠ [])))) :=
  extract_mkFenced lang pre bs hl hpre hbs hne

theorem c2_amended_witness :
    extractCodeAndExplanation
      (some ("Here:\n".toList ++ mkFenced "css".toList
        [(true, "h1 \x7b color: red; \x7d".toList, "\nmore\n".toList),
         (false, "p \x7b margin: 0; \x7d".toList, [])]))
      "css".toList =
      ("h1 \x7b color: red; \x7d\np \x7b margin: 0; \x7d".toList,
       "Here:".toList) :=
  (c2_amended "css".toList "Here:\n".toList
    [(true, "h1 \x7b color: red; \x7d".toList, "\nmore\n".toList),
     (false, "p \x7b margin: 0; \x7d".toList, [])]
    (by unfold LangOk; decide) (by decide)
    (by unfold BlocksOk; decide) (by decide)).trans (by decide)

theorem ciPrefix_cons_ne {a b : Char} (as bs : Str)
    (h : (Char.toLower a == Char.toLower b) = false) :
    ciPrefix (a :: as) (b :: bs) = false := by
  simp only [ciPrefix, lowerS, List.map_cons, List.isPrefixOf, h,
    Bool.false_and]

theorem trimS_cons_ne_nil (c : Char) (t : Str) (hc : wsChar c = false) :
    trimS (c :: t) ≠ [] := by
  intro h
  have h1 : trimLeftS (c :: t) = c :: t := by
    unfold trimLeftS
    rw [List.dropWhile_cons, if_neg (by simp [hc])]
  have h2 : trimRightS (c :: t) = [] := by
    have he : trimS (c :: t) = trimRightS (trimLeftS (c :: t)) := rfl
    rw [he, h1] at h
    exact h
  have h3 := trimRightS_nil_iff.1 h2 c (List.mem_cons_self c t)
  rw [hc] at h3
  exact Bool.noConfusion h3

/-- C1 counterexample: there is no reserved-marker stage.  On the two-block
input "```code\nalert(1)\n```\n```explanation\nIt alerts.\n```" with target
language javascript, the generic fence scanner captures the marker words
inside the fence bodies, so the returned code is not the trimmed contents of
the code-tagged block. -/
theorem c1_counterexample :
    (extractCodeAndExplanation
      (some "```code\nalert(1)\n```\n```explanation\nIt alerts.\n```".toList)
      "javascript".toList) =
      ("code\nalert(1)\nexplanation\nIt alerts.".toList, []) ∧
    "code\nalert(1)\nexplanation\nIt alerts.".toList ≠ "alert(1)".toList := by
  exact ⟨rfl, by decide⟩

/-- C1 amended: the classifier has no reserved-marker stage.  On a two-block
input whose fences are tagged with the marker words code and explanation
(and the target language starts with neither letter, so the optional
language-tag group does not consume the markers), the generic fence scanner
captures the marker words inside both fence bodies: the returned code is the
allow-list cleanup of the blank-line join of both trimmed captures — marker
words included — and the explanation is empty. -/
theorem c1_amended (l₀ : Char) (ls c e : Str)
    (hl : LangOk (l₀ :: ls))
    (hc0 : (Char.toLower l₀ == Char.toLower 'c') = false)
    (he0 : (Char.toLower l₀ == Char.toLower 'e') = false)
    (hcb : ∀ x ∈ c, x ≠ '`') (heb : ∀ x ∈ e, x ≠ '`') :
    extractCodeAndExplanation
      (some (ticks ++ (("code\n".toList ++ c) ++ '\n' ::
        (ticks ++ ('\n' :: (ticks ++ (("explanation\n".toList ++ e) ++ '\n' ::
          (ticks ++ []))))))))
      (l₀ :: ls) =
      (cleanupCode (l₀ :: ls) (joinSep "\n\n".toList
        [trimS ("code\n".toList ++ c), trimS ("explanation\n".toList ++ e)]),
       []) := by
  have hb1 : ∀ x ∈ "code\n".toList ++ c, x ≠ '`' := by
    intro x hx
    rcases List.mem_append.1 hx with h | h
    · have hfix : ∀ y ∈ "code\n".toList, y ≠ '`' := by decide
      exact hfix x h
    · exact hcb x h
  have hb2 : ∀ x ∈ "explanation\n".toList ++ e, x ≠ '`' := by
    intro x hx
    rcases List.mem_append.1 hx with h | h
    · have hfix : ∀ y ∈ "explanation\n".toList, y ≠ '`' := by decide
      exact hfix x h
    · exact heb x h
  have hci1 : ciPrefix (l₀ :: ls) (("code\n".toList ++ c) ++ '\n' ::
      (ticks ++ ('\n' :: (ticks ++ (("explanation\n".toList ++ e) ++ '\n' ::
        (ticks ++ [])))))) = false := ciPrefix_cons_ne _ _ hc0
  have hdrop1 : dropTag (l₀ :: ls) (("code\n".toList ++ c) ++ '\n' ::
      (ticks ++ ('\n' :: (ticks ++ (("explanation\n".toList ++ e) ++ '\n' ::
        (ticks ++ [])))))) = ("code\n".toList ++ c) ++ '\n' ::
      (ticks ++ ('\n' :: (ticks ++ (("explanation\n".toList ++ e) ++ '\n' ::
        (ticks ++ []))))) := by
    unfold dropTag
    rw [hci1]
    rfl
  have hci2 : ciPrefix (l₀ :: ls) (("explanation\n".toList ++ e) ++ '\n' ::
      (ticks ++ [])) = false := ciPrefix_cons_ne _ _ he0
  have hdrop2 : dropTag (l₀ :: ls) (("explanation\n".toList ++ e) ++ '\n' ::
      (ticks ++ [])) = ("explanation\n".toList ++ e) ++ '\n' ::
      (ticks ++ []) := by
    unfold dropTag
    rw [hci2]
    rfl
  have hs1 : scanFences (l₀ :: ls) (ticks ++ (("code\n".toList ++ c) ++ '\n' ::
      (ticks ++ ('\n' :: (ticks ++ (("explanation\n".toList ++ e) ++ '\n' ::
        (ticks ++ []))))))) =
      trimLeftS ("code\n".toList ++ c) :: scanFences (l₀ :: ls)
        ('\n' :: (ticks ++ (("explanation\n".toList ++ e) ++ '\n' ::
          (ticks ++ [])))) :=
    scanFences_rawFence (l₀ :: ls) [] ("code\n".toList ++ c)
      ('\n' :: (ticks ++ (("explanation\n".toList ++ e) ++ '\n' ::
        (ticks ++ [])))) hdrop1 hb1
  have hs2 : scanFences (l₀ :: ls)
      ('\n' :: (ticks ++ (("explanation\n".toList ++ e) ++ '\n' ::
        (ticks ++ [])))) =
      scanFences (l₀ :: ls) (ticks ++ (("explanation\n".toList ++ e) ++ '\n' ::
        (ticks ++ []))) :=
    scanFences_skip (l₀ :: ls) ['\n'] _ (by decide)
  have hs3 : scanFences (l₀ :: ls) (ticks ++ (("explanation\n".toList ++ e) ++
      '\n' :: (ticks ++ []))) =
      trimLeftS ("explanation\n".toList ++ e) :: scanFences (l₀ :: ls) [] :=
    scanFences_rawFence (l₀ :: ls) [] ("explanation\n".toList ++ e) []
      hdrop2 hb2
  have ht1 : trimLeftS ("code\n".toList ++ c) = "code\n".toList ++ c := rfl
  have ht2 : trimLeftS ("explanation\n".toList ++ e) =
      "explanation\n".toList ++ e := rfl
  have hscan : scanFences (l₀ :: ls) (ticks ++ (("code\n".toList ++ c) ++
      '\n' :: (ticks ++ ('\n' :: (ticks ++ (("explanation\n".toList ++ e) ++
        '\n' :: (ticks ++ []))))))) =
      ["code\n".toList ++ c, "explanation\n".toList ++ e] := by
    rw [hs1, hs2, hs3, ht1, ht2, scanFences_nil]
  have htick : startsWithS ticks (ticks ++ (("code\n".toList ++ c) ++ '\n' ::
      (ticks ++ ('\n' :: (ticks ++ (("explanation\n".toList ++ e) ++ '\n' ::
        (ticks ++ []))))))) = true := startsWith_self_append ticks _
  have htne : ticks ++ (("code\n".toList ++ c) ++ '\n' ::
      (ticks ++ ('\n' :: (ticks ++ (("explanation\n".toList ++ e) ++ '\n' ::
        (ticks ++ [])))))) ≠ [] := by
    intro hh
    exact absurd (List.append_eq_nil.1 hh).1 (by decide)
  have hbt : beforeTicks (ticks ++ (("code\n".toList ++ c) ++ '\n' ::
      (ticks ++ ('\n' :: (ticks ++ (("explanation\n".toList ++ e) ++ '\n' ::
        (ticks ++ []))))))) = [] :=
    beforeTicks_append [] _ (fun x hx => absurd hx (List.not_mem_nil x)) htick
  have h1 : trimS ("code\n".toList ++ c) ≠ [] :=
    trimS_cons_ne_nil 'c' ("ode\n".toList ++ c) (by decide)
  have h2 : trimS ("explanation\n".toList ++ e) ≠ [] :=
    trimS_cons_ne_nil 'e' ("xplanation\n".toList ++ e) (by decide)
  unfold extractCodeAndExplanation
  dsimp only
  rw [if_neg htne]
  rw [hscan]
  rw [if_pos (by simp)]
  rw [hbt]
  refine congrArg₂ Prod.mk ?_ ?_
  · have hp1 : decide (trimS ("code\n".toList ++ c) ≠ []) = true :=
      decide_eq_true h1
    have hp2 : decide (trimS ("explanation\n".toList ++ e) ≠ []) = true :=
      decide_eq_true h2
    simp only [List.map_cons, List.map_nil]
    rw [List.filter_cons, List.filter_cons, List.filter_nil, hp1, hp2]
    rfl
  · rfl

theorem c1_amended_witness :
    extractCodeAndExplanation
      (some "```code\nalert(1)\n```\n```explanation\nIt alerts.\n```".toList)
      "javascript".toList =
      ("code\nalert(1)\nexplanation\nIt alerts.".toList, []) :=
  (c1_amended 'j' "avascript".toList "alert(1)".toList "It alerts.".toList
    (by unfold LangOk; decide) (by decide) (by decide) (by decide)
    (by decide)).trans (by decide)
